import Mathlib

set_option linter.unusedSectionVars false

/-!
# Verification of the Dify workflow graph engine core

Shallow embedding of `api/core/workflow/graph_engine/graph_engine.py`
(classes `GraphEngineThreadPool`, `GraphEngine`, function
`_handle_continue_on_error`, the driver loop `_run`, the node runner
`_run_node`, the outer wrapper `run`, and the parallel-branch multiplexing
loop of `_run_parallel_branches`), together with the sub-graph carving
filter of
`api/core/app/apps/workflow_app_runner.py`
(`_get_graph_and_variable_pool_of_single_iteration`).

Machine integers are modelled as `Nat` (Python integers are unbounded, and
all counters here are non-negative).  Python `Optional[str]` values are
`Option String`.  Generators are modelled as the finite list of events they
yield together with a termination marker (normal exhaustion, a raised
`GraphRunFailedError`, or another raised exception).  Wall-clock time
(`_is_timed_out`) and cooperative cancellation (`GenerateTaskStoppedError`)
are not modelled; the corresponding branches never fire in the embedded
runs.
-/

namespace Dify

/-! ## Python string helpers -/

/-- Python `str.strip()` with no argument: remove whitespace from both ends
(restricted to the ASCII whitespace recognised by `Char.isWhitespace`;
the inputs in this development are ASCII). -/
def pyStrip (s : String) : String :=
  ⟨((s.data.dropWhile Char.isWhitespace).reverse.dropWhile Char.isWhitespace).reverse⟩

/-- Python `x or y` for an `Optional[str] x` with a string default `y`
(also treats the empty string as falsy, as Python does). -/
def pyOr (x : Option String) (y : String) : String :=
  match x with
  | none => y
  | some s => if s = "" then y else s

/-! ## GraphEngineThreadPool

Embedding of `GraphEngineThreadPool` (graph_engine.py lines 82-148).
The pool state keeps the mutable `submit_count` together with its
`max_submit_count` cap.  `inFlight` is the number of live futures
(tasks submitted and not yet completed); it is ghost bookkeeping used to
state the invariant relating `submit_count` to completions, mirroring the
fact that `task_done_callback` runs once per future. -/

structure PoolState where
  maxSubmitCount : Nat
  submitCount : Nat
  inFlight : Nat
  rejected : Nat
deriving Repr, DecidableEq

/-- `check_is_full` (lines 139-148): raises
`ValueError("Max submit count {max} of workflow thread pool reached.")`
when `submit_count > max_submit_count`. -/
def checkIsFull (st : PoolState) : Except String Unit :=
  if st.submitCount > st.maxSubmitCount then
    .error ("Max submit count " ++ toString st.maxSubmitCount ++
      " of workflow thread pool reached.")
  else
    .ok ()

/-- `submit` (lines 109-127): increment `submit_count`, then run the cap
check; only when the check passes is a task actually handed to the executor
(one more future in flight).  A raising `submit` leaves the incremented
counter behind and creates no future. -/
def PoolState.submit (st : PoolState) : PoolState × Except String Unit :=
  let st' := { st with submitCount := st.submitCount + 1 }
  match checkIsFull st' with
  | .error e => ({ st' with rejected := st'.rejected + 1 }, .error e)
  | .ok () => ({ st' with inFlight := st'.inFlight + 1 }, .ok ())

/-- `task_done_callback` (lines 129-137): runs once per completed future
and decrements `submit_count`. -/
def PoolState.taskDone (st : PoolState) : PoolState :=
  { st with submitCount := st.submitCount - 1, inFlight := st.inFlight - 1 }

/-- A fresh pool (constructor, lines 87-107): `submit_count = 0`. -/
def PoolState.fresh (maxSubmitCount : Nat) : PoolState :=
  ⟨maxSubmitCount, 0, 0, 0⟩

/-- One observable pool operation: a `submit` call or the completion
callback of a live future. -/
inductive PoolOp where
  | submit
  | complete
deriving Repr, DecidableEq

/-- Run a sequence of pool operations.  A `complete` op is only meaningful
when a future is in flight (the executor fires `task_done_callback` once
per future); an ill-formed trace is simply ignored at that step. -/
def PoolState.runOps (st : PoolState) : List PoolOp → PoolState
  | [] => st
  | .submit :: ops => ((st.submit).1).runOps ops
  | .complete :: ops =>
      if st.inFlight > 0 then (st.taskDone).runOps ops else st.runOps ops

/-- The dispatch loop of `_run_parallel_branches` (lines 688-714) submits
one task per dispatched edge; the first raising `submit` propagates its
`ValueError` out of the dispatcher. -/
def submitBranches (st : PoolState) : Nat → Except String PoolState
  | 0 => .ok st
  | n + 1 =>
      match st.submit with
      | (st', .ok ()) => submitBranches st' n
      | (_, .error e) => .error e

/-! ## Data model: node types, statuses, results

From `core.workflow.nodes.enums` / `core.workflow.entities` as used by
graph_engine.py.  Those modules are not part of the provided sources; the
enumerations below are modelled from the spec (§3 "Node", §6 "Node
contract"), keeping only the members graph_engine.py mentions plus a
catch-all `other` for the remaining node types. -/

/-- `NodeType` members used by the engine (`START`, `END`, `ANSWER`,
`HTTP_REQUEST`, `AGENT`); every other member is collapsed into `other`. -/
inductive NodeType where
  | start
  | end_
  | answer
  | httpRequest
  | agent
  | other
deriving Repr, DecidableEq

/-- `ErrorStrategy` (`core.workflow.nodes.enums`): `DEFAULT_VALUE` /
`FAIL_BRANCH`.  Modelled from the spec §3: `error_strategy ∈ {none,
default_value, fail_branch}`; absence is `Option.none`. -/
inductive ErrorStrategy where
  | defaultValue
  | failBranch
deriving Repr, DecidableEq

/-- `WorkflowNodeExecutionStatus` members the engine dispatches on. -/
inductive ExecStatus where
  | succeeded
  | failed
  | exception
deriving Repr, DecidableEq

/-- `RouteNodeState.Status` (runtime_route_state). -/
inductive RouteStatus where
  | running
  | success
  | failed
  | exception
deriving Repr, DecidableEq

/-- `FailBranchSourceHandle` (`core.workflow.nodes.enums`):
`SUCCESS` / `FAILED`. -/
inductive SourceHandle where
  | success
  | failed
deriving Repr, DecidableEq

/-- A Python value in a node-output dictionary or the variable pool:
either `None` or a string (the values the embedded runs manipulate). -/
abbrev PVal := Option String

/-- Python dict insertion `d[k] = v`: update in place when the key exists,
else append at the end (insertion order preserved). -/
def dictInsert : List (String × PVal) → String → PVal → List (String × PVal)
  | [], k, v => [(k, v)]
  | (k', v') :: rest, k, v =>
      if k' = k then (k, v) :: rest else (k', v') :: dictInsert rest k v

/-- Python `d.get(k, "")` restricted to string values: a present string
value is returned, a present `None` or an absent key gives `""`.
(`run_result.outputs.get("answer", "")` in `GraphEngine.run`; the answer
outputs in the embedded runs are strings.) -/
def dictGetStr (d : List (String × PVal)) (k : String) : String :=
  match d.lookup k with
  | some (some s) => s
  | _ => ""

/-- `WorkflowNodeExecutionMetadataKey` entries the engine writes or reads
(`ERROR_STRATEGY`, `TOTAL_TOKENS`); the parallel-context keys are carried
elsewhere in this embedding. -/
structure RunMeta where
  errorStrategy : Option ErrorStrategy := none
  totalTokens : Option Nat := none
deriving Repr, DecidableEq

/-- `NodeRunResult` as consumed by graph_engine.py: status, error text and
type, inputs, outputs dictionary, the fail-branch edge source handle, and
metadata. -/
structure RunResult where
  status : ExecStatus
  error : Option String := none
  errorType : Option String := none
  inputs : List (String × PVal) := []
  outputs : List (String × PVal) := []
  edgeSourceHandle : Option SourceHandle := none
  metadata : RunMeta := {}
deriving Repr, DecidableEq

/-- A node as the engine sees it (spec §6 "Node contract": introspection
fields plus `run()`).  `behavior i` is the `RunCompleted` result of the
`i`-th invocation of `node.run()` (attempt 0 is the first run, attempt `i`
the `i`-th retry); modelled from the spec's node contract, since node
implementations are external collaborators.  `retry` is the node's
retry-enabled flag, `maxRetries`/`retryIntervalSeconds` its
`retry_config`. -/
structure Node (α : Type) where
  nodeId : α
  type_ : NodeType
  errorStrategy : Option ErrorStrategy := none
  retry : Bool := false
  maxRetries : Nat := 0
  retryIntervalSeconds : Nat := 0
  defaultValueDict : List (String × PVal) := []
  behavior : Nat → RunResult

/-- `BaseNode.continue_on_error`: modelled from the spec §3/§4.4 — the flag
is set exactly when an error strategy is configured. -/
def continueOnError {α : Type} (node : Node α) : Bool :=
  node.errorStrategy.isSome

/-- An edge of `graph.edge_mapping` (`GraphEdge`): target node and an
optional run condition, identified by its stable hash. -/
structure GraphEdge (α : Type) where
  targetNodeId : α
  runCondition : Option Nat := none
deriving DecidableEq

/-- The graph as the engine reads it: `node_id_config_mapping` (returning
the instantiated node, node construction being deterministic),
`edge_mapping`, and `node_parallel_mapping`. -/
structure Graph (α : Type) where
  nodeIdConfigMapping : α → Option (Node α)
  edgeMapping : α → List (GraphEdge α)
  nodeParallelMapping : α → Option String := fun _ => none
  rootNodeId : α

/-! ## Events

`core.workflow.graph_engine.entities.event` as emitted by the engine.
Events that `_run` can yield (never the terminal graph events) are
`InnerEvent`; `GraphEngineEvent` adds the graph-level events produced only
by `run()`.  Stream-chunk, retriever-resource, iteration/loop and agent
events are collapsed into `otherEvent`: `run()` treats them all
uniformly. -/

inductive InnerEvent (α : Type) where
  | nodeRunStarted (nodeId : α)
  | nodeRunSucceeded (nodeId : α) (nodeType : NodeType)
      (outputs : List (String × PVal))
  | nodeRunFailed (nodeId : α) (failedReason : Option String)
  | nodeRunException (nodeId : α) (error : String)
  | nodeRunRetry (nodeId : α) (retryIndex : Nat) (error : String)
  | parallelBranchRunStarted (parallelId : String)
  | parallelBranchRunSucceeded (parallelId : String)
  | parallelBranchRunFailed (parallelId : String) (error : String)
  | otherEvent
deriving Repr, DecidableEq

inductive GraphEngineEvent (α : Type) where
  | graphRunStarted
  | graphRunSucceeded (outputs : List (String × PVal))
  | graphRunPartialSucceeded (exceptionsCount : Nat)
      (outputs : List (String × PVal))
  | graphRunFailed (error : String) (exceptionsCount : Nat)
  | inner (e : InnerEvent α)
deriving Repr, DecidableEq

/-! ## Engine mutable state -/

/-- The parts of `GraphRuntimeState` (plus the engine-local
`handle_exceptions` list) that the embedded operations mutate.  Modelled
from the spec §3 "Graph Runtime State": the state is created fresh before
`run`, so all counters start at zero and the pool and exception list start
empty. -/
structure EngineState (α : Type) where
  pool : List ((α × String) × PVal) := []
  handleExceptions : List String := []
  nodeRunSteps : Nat := 0
  totalTokens : Nat := 0

/-- `_append_variables_recursively` for each output key
(graph_engine.py lines 1129-1146 delegating to
`variable_utils.append_variables_recursively`): with the flat string
values of this embedding, each `(key, value)` pair becomes one
`variable_pool.add([node_id, key], value)`.  Modelled from the spec
(Variable Pool component, C1): `variable_utils` is not among the provided
sources. -/
def appendOutputs {α : Type} (st : EngineState α) (nodeId : α)
    (outputs : List (String × PVal)) : EngineState α :=
  { st with pool := st.pool ++ outputs.map fun kv => ((nodeId, kv.1), kv.2) }

variable {α : Type} [DecidableEq α]

/-! ## Continue-on-error handling -/

/-- `GraphEngine._handle_continue_on_error` (graph_engine.py lines
1179-1241): write `error_message` / `error_type` into the variable pool
under the node id, append the error text to `handle_exceptions`, and build
the exception result according to the node's error strategy.  With no
strategy configured the original error result is returned unchanged
(line 1241).  The rewritten result's `error_type` field is the
`NodeRunResult` default (the constructor call passes only `status`,
`error`, `inputs`, `metadata` and `outputs`). -/
def handleContinueOnError (g : Graph α) (node : Node α)
    (errorResult : RunResult) (st : EngineState α) :
    RunResult × EngineState α :=
  let st' : EngineState α :=
    { st with
      pool := st.pool ++
        [((node.nodeId, "error_message"), errorResult.error),
         ((node.nodeId, "error_type"), errorResult.errorType)],
      handleExceptions := st.handleExceptions ++ [errorResult.error.getD ""] }
  let base : RunResult :=
    { status := .exception,
      error := errorResult.error,
      inputs := errorResult.inputs,
      metadata := { errorStrategy := node.errorStrategy } }
  match node.errorStrategy with
  | some .defaultValue =>
      ({ base with
          outputs := dictInsert
            (dictInsert node.defaultValueDict "error_message"
              errorResult.error)
            "error_type" errorResult.errorType }, st')
  | some .failBranch =>
      ({ base with
          edgeSourceHandle :=
            if g.edgeMapping node.nodeId ≠ [] then some .failed else none,
          outputs :=
            [("error_message", errorResult.error),
             ("error_type", errorResult.errorType)] }, st')
  | none => (errorResult, st')

/-! ## Node execution (`_run_node`) -/

/-- The HTTP-request exception policy (graph_engine.py lines 929-935),
applied to a completed result whose status is `FAILED`: when retries are
exhausted (`retries == max_retries`), the node is an HTTP-request node,
the result carries (truthy, i.e. non-empty) outputs, and the node does not
continue on error, the status is coerced to `SUCCEEDED`. -/
def httpCoerce (node : Node α) (retries : Nat) (r : RunResult) : RunResult :=
  if r.status = .failed ∧ retries = node.maxRetries ∧
      node.type_ = .httpRequest ∧ r.outputs ≠ [] ∧ ¬continueOnError node then
    { r with status := .succeeded }
  else
    r

/-- Final handling of a completed result once retrying is over
(graph_engine.py lines 964-1076): `set_finished` then the
failed / succeeded dispatch.  Returns the emitted events, the updated
state, the route-node-state status and the stored `node_run_result`.
A result that is neither failed nor succeeded (a node reporting
`EXCEPTION` itself) produces no event here; that branch is not exercised
by the embedded runs. -/
def finishResult (g : Graph α) (node : Node α) (r : RunResult)
    (st : EngineState α) :
    List (InnerEvent α) × EngineState α × RouteStatus × Option RunResult :=
  if r.status = .failed then
    if continueOnError node then
      let (r2, st') := handleContinueOnError g node r st
      let st'' := appendOutputs st' node.nodeId r2.outputs
      ([.nodeRunException node.nodeId (pyOr r2.error "System Error")],
        st'', .exception, some r2)
    else
      ([.nodeRunFailed node.nodeId r.error], st, .failed, some r)
  else if r.status = .succeeded then
    let r2 :=
      if continueOnError node ∧ g.edgeMapping node.nodeId ≠ [] ∧
          node.errorStrategy = some .failBranch then
        { r with edgeSourceHandle := some .success }
      else r
    let st' :=
      { st with totalTokens := st.totalTokens + r2.metadata.totalTokens.getD 0 }
    let st'' := appendOutputs st' node.nodeId r2.outputs
    ([.nodeRunSucceeded node.nodeId node.type_ r2.outputs], st'', .success,
      some r2)
  else
    ([], st, .exception, some r)

/-- The retry loop of `_run_node` (graph_engine.py lines 901-1076) from the
current `retries` counter on.  `fuel` is `max_retries + 1 - retries`, the
number of attempts the `while retries <= max_retries` loop can still make;
the loop re-enters only after a `NodeRunRetry` emission, which requires
`retries < max_retries`, so the fuel never runs out on the paths the
theorems traverse.  On a failed completion the coercion of lines 929-935
runs first, then the retry check of lines 938-961. -/
def runNodeLoop (g : Graph α) (node : Node α) (retries : Nat)
    (fuel : Nat) (st : EngineState α) :
    List (InnerEvent α) × EngineState α × RouteStatus × Option RunResult :=
  match fuel with
  | 0 => ([], st, .running, none)
  | fuel + 1 =>
      let r0 := node.behavior retries
      if r0.status = .failed then
        let r1 := httpCoerce node retries r0
        if node.retry ∧ retries < node.maxRetries then
          let ev : InnerEvent α :=
            .nodeRunRetry node.nodeId (retries + 1)
              (pyOr r1.error "Unknown error")
          let rest := runNodeLoop g node (retries + 1) fuel st
          (ev :: rest.1, rest.2)
        else
          finishResult g node r1 st
      else
        finishResult g node r0 st

/-- `GraphEngine._run_node` (graph_engine.py lines 840-1127): emit
`NodeRunStarted`, then drive the retry loop from `retries = 0`. -/
def runNode (g : Graph α) (node : Node α) (st : EngineState α) :
    List (InnerEvent α) × EngineState α × RouteStatus × Option RunResult :=
  let rest := runNodeLoop g node 0 (node.maxRetries + 1) st
  (.nodeRunStarted node.nodeId :: rest.1, rest.2)

/-! ## Driver loop (`_run`) -/

/-- How a `_run` driver invocation ends: fall out of the `while` loop
(`normal`), raise `GraphRunFailedError` (`failedError`), reach a
multi-edge parallel dispatch (threaded execution, outside this sequential
embedding), or exhaust the recursion fuel (the Python loop is unbounded;
theorems always supply enough fuel). -/
inductive DriverOutcome where
  | normal
  | failedError (error : String)
  | parallelDispatch
  | outOfFuel
deriving Repr, DecidableEq

/-- The grouping of conditional edges by `run_condition.hash`
(graph_engine.py lines 537-544): a Python dict keyed by hash in first-seen
order, each value collecting the edges with that hash in config order. -/
def addToGroup : List (Nat × List (GraphEdge α)) → Nat → GraphEdge α →
    List (Nat × List (GraphEdge α))
  | [], h, e => [(h, [e])]
  | (h', es) :: rest, h, e =>
      if h' = h then (h', es ++ [e]) :: rest
      else (h', es) :: addToGroup rest h e

def groupConditionEdges (edges : List (GraphEdge α)) :
    List (Nat × List (GraphEdge α)) :=
  edges.foldl
    (fun acc e =>
      match e.runCondition with
      | none => acc
      | some h => addToGroup acc h e)
    []

/-- Result of scanning the condition groups (lines 547-596): no group
passed (the driver stops), a single-edge group passed (sequential
successor), or a multi-edge group passed (parallel dispatch). -/
inductive CondPick (α : Type) where
  | noBranch
  | single (target : α)
  | parallel
deriving DecidableEq

/-- Iterate the condition groups in order and take the first whose head
edge's condition evaluates true (lines 547-592); a group whose head edge
lost its condition is skipped with a warning (line 552-554). -/
def pickConditionGroup (condEval : Nat → Bool) :
    List (Nat × List (GraphEdge α)) → CondPick α
  | [] => .noBranch
  | (_, es) :: rest =>
      match es with
      | [] => pickConditionGroup condEval rest
      | e :: es' =>
          match e.runCondition with
          | none => pickConditionGroup condEval rest
          | some h =>
              if condEval h then
                if es' = [] then .single e.targetNodeId else .parallel
              else pickConditionGroup condEval rest

/-- `GraphEngine._run` (graph_engine.py lines 353-633) for the sequential
fragment.  `condEval` abstracts `ConditionManager.…check(…)` (an external
collaborator evaluating against the runtime state).  Per loop iteration:
the max-steps bound check (line 391; the wall-clock check of line 395 is
not modelled), node-config resolution (line 405), node execution with the
step counter incremented once per `NodeRunStarted` (lines 437-454), the
END-node exit (line 484), successor selection over the outgoing edges
(lines 494-628) and the parallel-exit guard (line 632).  The
`previous_route_node_state` consulted by the edge checks is the state of
the node just run (reassigned at line 491 before edge selection). -/
def drive [ToString α] (g : Graph α) (condEval : Nat → Bool)
    (maxExecutionSteps : Nat) (inParallelId : Option String) :
    Nat → α → EngineState α →
    List (InnerEvent α) × EngineState α × DriverOutcome
  | 0, _, st => ([], st, .outOfFuel)
  | fuel + 1, nextNodeId, st =>
      if st.nodeRunSteps > maxExecutionSteps then
        ([], st,
          .failedError ("Max steps " ++ toString maxExecutionSteps ++
            " reached."))
      else
        match g.nodeIdConfigMapping nextNodeId with
        | none =>
            ([], st,
              .failedError ("Node " ++ toString nextNodeId ++
                " config not found."))
        | some node =>
            let (evs, st1, routeStatus, _res) := runNode g node st
            let st2 :=
              { st1 with
                nodeRunSteps := st1.nodeRunSteps +
                  evs.countP fun e =>
                    match e with
                    | .nodeRunStarted _ => true
                    | _ => false }
            if node.type_ = .end_ then (evs, st2, .normal)
            else
              let goOn (target : α) :
                  List (InnerEvent α) × EngineState α × DriverOutcome :=
                match inParallelId with
                | some p =>
                    if (g.nodeParallelMapping target).getD "" ≠ p then
                      (evs, st2, .normal)
                    else
                      let rest :=
                        drive g condEval maxExecutionSteps inParallelId
                          fuel target st2
                      (evs ++ rest.1, rest.2)
                | none =>
                    let rest :=
                      drive g condEval maxExecutionSteps inParallelId
                        fuel target st2
                    (evs ++ rest.1, rest.2)
              match g.edgeMapping nextNodeId with
              | [] => (evs, st2, .normal)
              | [edge] =>
                  if routeStatus = .exception ∧
                      node.errorStrategy = some .failBranch ∧
                      edge.runCondition = none then
                    (evs, st2, .normal)
                  else
                    match edge.runCondition with
                    | some h =>
                        if condEval h then goOn edge.targetNodeId
                        else (evs, st2, .normal)
                    | none => goOn edge.targetNodeId
              | e1 :: e2 :: es =>
                  let edges := e1 :: e2 :: es
                  if edges.any fun e => e.runCondition.isSome then
                    match pickConditionGroup condEval
                        (groupConditionEdges edges) with
                    | .noBranch => (evs, st2, .normal)
                    | .single target => goOn target
                    | .parallel => (evs, st2, .parallelDispatch)
                  else if continueOnError node ∧
                      node.errorStrategy = some .failBranch ∧
                      routeStatus = .exception then
                    (evs, st2, .normal)
                  else
                    (evs, st2, .parallelDispatch)

/-! ## Outer wrapper (`run`) -/

/-- How the inner generator handed to `run()`'s `for` loop terminates:
normal exhaustion, a raised `GraphRunFailedError`, or any other raised
exception. -/
inductive InnerTermination where
  | normal
  | failedError (error : String)
  | otherError (error : String)
deriving Repr, DecidableEq

/-- The `ANSWER`-node accumulation of `run()` (graph_engine.py lines
298-313): ensure `outputs["answer"]` exists, append a newline plus the
node's `"answer"` output, then `strip()` the accumulated string. -/
def updateAnswerOutputs (outs evOuts : List (String × PVal)) :
    List (String × PVal) :=
  let outs' :=
    if (outs.lookup "answer").isNone then dictInsert outs "answer" (some "")
    else outs
  dictInsert outs' "answer"
    (some (pyStrip (dictGetStr outs' "answer" ++ "\n" ++
      dictGetStr evOuts "answer")))

/-- The `for item in generator` body of `run()` (graph_engine.py lines
276-318), threading the exception counter (`len(handle_exceptions)`, one
append per emitted `NodeRunExceptionEvent`) and
`graph_runtime_state.outputs`.  Returns the forwarded events (with any
early terminal event) and, when the loop ran to completion, the final
counter and outputs. -/
def processItems :
    List (InnerEvent α) → Nat → List (String × PVal) →
    List (GraphEngineEvent α) × Option (Nat × List (String × PVal))
  | [], exc, outs => ([], some (exc, outs))
  | e :: rest, exc, outs =>
      match e with
      | .nodeRunFailed _ reason =>
          ([.inner e, .graphRunFailed (pyOr reason "Unknown error.") exc],
            none)
      | .nodeRunSucceeded _ ty evOuts =>
          let outs' :=
            if ty = .end_ then evOuts
            else if ty = .answer then updateAnswerOutputs outs evOuts
            else outs
          let r := processItems rest exc outs'
          (.inner e :: r.1, r.2)
      | .nodeRunException _ _ =>
          let r := processItems rest (exc + 1) outs
          (.inner e :: r.1, r.2)
      | _ =>
          let r := processItems rest exc outs
          (.inner e :: r.1, r.2)

/-- `GraphEngine.run` (graph_engine.py lines 240-342) over an inner event
stream: emit `GraphRunStarted`, forward and fold the inner events, and —
unless a `NodeRunFailedEvent` already produced the terminal — finish
according to how the inner generator terminated: exhaustion picks
`GraphRunPartialSucceeded` when `handle_exceptions` is non-empty and
`GraphRunSucceeded` otherwise (lines 320-328); a raised
`GraphRunFailedError` or any other exception yields `GraphRunFailed`
(lines 332-342).  The stream processors (§4.6) forward every event of this
embedding unchanged. -/
def runOuter (inner : List (InnerEvent α)) (term : InnerTermination) :
    List (GraphEngineEvent α) :=
  .graphRunStarted ::
    (let r := processItems inner 0 []
     r.1 ++
       match r.2 with
       | none => []
       | some (exc, outs) =>
           match term with
           | .normal =>
               if exc > 0 then [.graphRunPartialSucceeded exc outs]
               else [.graphRunSucceeded outs]
           | .failedError e => [.graphRunFailed e exc]
           | .otherError e => [.graphRunFailed e exc])

/-- Map the driver outcome to the termination of the generator `run()`
consumes. -/
def terminationOfOutcome : DriverOutcome → InnerTermination
  | .normal => .normal
  | .failedError e => .failedError e
  | .parallelDispatch => .otherError "parallel dispatch outside embedding"
  | .outOfFuel => .otherError "fuel exhausted"

/-- `run()` composed with the top-level `_run(start_node_id =
graph.root_node_id)` for the sequential fragment. -/
def engineRun [ToString α] (g : Graph α) (condEval : Nat → Bool)
    (maxExecutionSteps fuel : Nat) : List (GraphEngineEvent α) :=
  let d := drive g condEval maxExecutionSteps none fuel g.rootNodeId {}
  runOuter d.1 (terminationOfOutcome d.2.2)

/-! ## Parallel-branch multiplexing (`_run_parallel_branches`) -/

/-- How the monitoring loop of `_run_parallel_branches` (graph_engine.py
lines 717-743) ends: the channel is closed after the last branch's
success (`q.put(None)` at line 735, read back as the `None` sentinel at
line 722), a `ParallelBranchRunFailedEvent` raises `GraphRunFailedError`
(line 740), or the modelled queue content ran out without either. -/
inductive MuxOutcome where
  | closed
  | failed (error : String)
  | drained
deriving Repr, DecidableEq

/-- The monitoring loop of `_run_parallel_branches` (lines 716-743) over
the sequence of events arriving on the queue (an arbitrary interleaving of
the branch outputs).  Every received event is yielded; a
`ParallelBranchRunSucceededEvent` for this `parallel_id` increments
`succeeded_count`, and reaching `numFutures` (the number of submitted
branches, `len(futures)`) closes the channel — each branch ends with its
terminal event, so nothing but the `None` sentinel follows the last
success on the queue.  A `ParallelBranchRunFailedEvent` for this
`parallel_id` is yielded and then raises `GraphRunFailedError` with the
branch's error. -/
def muxLoop (parallelId : String) (numFutures : Nat) :
    List (InnerEvent α) → Nat → List (InnerEvent α) × MuxOutcome
  | [], _ => ([], .drained)
  | e :: rest, succeededCount =>
      match e with
      | .parallelBranchRunSucceeded pid =>
          if pid = parallelId then
            if succeededCount + 1 = numFutures then ([e], .closed)
            else
              let r := muxLoop parallelId numFutures rest (succeededCount + 1)
              (e :: r.1, r.2)
          else
            let r := muxLoop parallelId numFutures rest succeededCount
            (e :: r.1, r.2)
      | .parallelBranchRunFailed pid err =>
          if pid = parallelId then ([e], .failed err)
          else
            let r := muxLoop parallelId numFutures rest succeededCount
            (e :: r.1, r.2)
      | _ =>
          let r := muxLoop parallelId numFutures rest succeededCount
          (e :: r.1, r.2)

/-! ## Sub-graph carver (workflow_app_runner.py)

`WorkflowBasedAppRunner._get_graph_and_variable_pool_of_single_iteration`,
node/edge filtering steps (lines 189-215 of the original numbering).  A
node config carries its `id` and the `data.iteration_id` back-reference
(absent outside iteration bodies; the remaining config fields do not
affect the filter); an edge config carries optional `source` / `target`
ids, exactly as `edge.get("source")` / `edge.get("target")` can return
`None`. -/

structure NodeCfg where
  id : String
  iterationId : Option String := none
deriving Repr, DecidableEq

structure EdgeCfg where
  source : Option String := none
  target : Option String := none
deriving Repr, DecidableEq

/-- Node filter: keep the chosen node and every node whose config carries
`iteration_id == node_id` (`node.get("data", {}).get("iteration_id", "")
== node_id`). -/
def filterIterationNodes (nodeId : String) (nodes : List NodeCfg) :
    List NodeCfg :=
  nodes.filter fun n => n.id = nodeId ∨ n.iterationId.getD "" = nodeId

/-- One endpoint of the edge filter:
`edge.get("source") is None or edge.get("source") in node_ids`. -/
def endpointOk (nodeIds : List String) : Option String → Bool
  | none => true
  | some s => nodeIds.contains s

/-- Edge filter over the ids of the filtered nodes. -/
def filterIterationEdges (nodeIds : List String) (edges : List EdgeCfg) :
    List EdgeCfg :=
  edges.filter fun e => endpointOk nodeIds e.source && endpointOk nodeIds e.target

/-- The node/edge carving step: filter the nodes, collect their ids, and
filter the edges against those ids. -/
def carve (nodeId : String) (nodes : List NodeCfg) (edges : List EdgeCfg) :
    List NodeCfg × List EdgeCfg :=
  let nodeCfgs := filterIterationNodes nodeId nodes
  (nodeCfgs, filterIterationEdges (nodeCfgs.map NodeCfg.id) edges)

/-- The edge filter as the spec states it (§4.5 step 2 / claim C9):
"Filter edges to those whose endpoints are both in the filtered node set"
— an edge is kept only when both endpoints are present and in the set.
Stated for comparison with `filterIterationEdges`. -/
def filterEdgesBothEndpointsSpec (nodeIds : List String)
    (edges : List EdgeCfg) : List EdgeCfg :=
  edges.filter fun e =>
    (match e.source with
     | none => false
     | some s => nodeIds.contains s) &&
    (match e.target with
     | none => false
     | some t => nodeIds.contains t)

/-! ## Linear-chain graphs (for the execution-bound claims) -/

/-- A plain always-succeeding node with no outputs and no retry or error
strategy. -/
def chainNode (i : Nat) : Node Nat :=
  { nodeId := i, type_ := .other, behavior := fun _ => { status := .succeeded } }

/-- The linear chain `0 → 1 → ⋯ → k-1` of `k` such nodes (no run
conditions, no parallel regions). -/
def chainGraph (k : Nat) : Graph Nat :=
  { nodeIdConfigMapping := fun i => if i < k then some (chainNode i) else none,
    edgeMapping := fun i => if i + 1 < k then [{ targetNodeId := i + 1 }] else [],
    rootNodeId := 0 }

/-- The driver events for running chain nodes `i, i+1, …, i+n-1`. -/
def chainEvents : Nat → Nat → List (InnerEvent Nat)
  | _, 0 => []
  | i, n + 1 =>
      .nodeRunStarted i :: .nodeRunSucceeded i .other [] :: chainEvents (i + 1) n

/-! ## Event predicates and counters -/

/-- Terminal graph-run events (`GraphRunSucceeded`,
`GraphRunPartialSucceeded`, `GraphRunFailed`). -/
def isTerminalEvent : GraphEngineEvent α → Bool
  | .graphRunSucceeded _ => true
  | .graphRunPartialSucceeded _ _ => true
  | .graphRunFailed _ _ => true
  | _ => false

def isNodeFailedEvent : InnerEvent α → Bool
  | .nodeRunFailed _ _ => true
  | _ => false

def isNodeExceptionEvent : InnerEvent α → Bool
  | .nodeRunException _ _ => true
  | _ => false

def isNodeStartedEvent : InnerEvent α → Bool
  | .nodeRunStarted _ => true
  | _ => false

def isNodeRetryEvent : InnerEvent α → Bool
  | .nodeRunRetry _ _ _ => true
  | _ => false

/-- The number of `NodeRunExceptionEvent` emissions in an inner stream:
one per `handle_exceptions.append`. -/
def countExceptions (inner : List (InnerEvent α)) : Nat :=
  inner.countP isNodeExceptionEvent

def isBranchSucceededFor (parallelId : String) : InnerEvent α → Bool
  | .parallelBranchRunSucceeded pid => pid = parallelId
  | _ => false

def isBranchFailedFor (parallelId : String) : InnerEvent α → Bool
  | .parallelBranchRunFailed pid _ => pid = parallelId
  | _ => false

/-! ## Lemmas about the outer `run()` loop -/

lemma processItems_snd_isSome_iff (inner : List (InnerEvent α)) :
    ∀ exc outs, ((processItems inner exc outs).2).isSome =
      inner.all (fun e => !isNodeFailedEvent e) := by
  induction inner with
  | nil => intro exc outs; simp [processItems]
  | cons e rest ih =>
      intro exc outs
      cases e <;> simp [processItems, isNodeFailedEvent, ih]

lemma processItems_of_clean (inner : List (InnerEvent α)) :
    ∀ exc outs, inner.all (fun e => !isNodeFailedEvent e) = true →
      ∃ o, processItems inner exc outs =
        (inner.map .inner, some (exc + countExceptions inner, o)) := by
  induction inner with
  | nil => intro exc outs _; exact ⟨outs, by simp [processItems, countExceptions]⟩
  | cons e rest ih =>
      intro exc outs hclean
      simp only [List.all_cons, Bool.and_eq_true] at hclean
      have hclean' := hclean
      cases e with
      | nodeRunFailed nid reason => simp [isNodeFailedEvent] at hclean'
      | nodeRunSucceeded nid ty evOuts =>
          obtain ⟨o, ho⟩ := ih exc
            (if ty = .end_ then evOuts
             else if ty = .answer then updateAnswerOutputs outs evOuts
             else outs) hclean'.2
          refine ⟨o, ?_⟩
          simp [processItems, ho, countExceptions, List.countP_cons,
            isNodeExceptionEvent]
      | nodeRunException nid err =>
          obtain ⟨o, ho⟩ := ih (exc + 1) outs hclean'.2
          refine ⟨o, ?_⟩
          simp only [processItems, ho, countExceptions, List.countP_cons,
            isNodeExceptionEvent, Prod.mk.injEq, Option.some.injEq,
            List.map_cons, if_pos]
          exact ⟨trivial, by omega, trivial⟩
      | nodeRunStarted nid =>
          obtain ⟨o, ho⟩ := ih exc outs hclean'.2
          exact ⟨o, by simp [processItems, ho, countExceptions,
            List.countP_cons, isNodeExceptionEvent]⟩
      | nodeRunRetry nid i err =>
          obtain ⟨o, ho⟩ := ih exc outs hclean'.2
          exact ⟨o, by simp [processItems, ho, countExceptions,
            List.countP_cons, isNodeExceptionEvent]⟩
      | parallelBranchRunStarted pid =>
          obtain ⟨o, ho⟩ := ih exc outs hclean'.2
          exact ⟨o, by simp [processItems, ho, countExceptions,
            List.countP_cons, isNodeExceptionEvent]⟩
      | parallelBranchRunSucceeded pid =>
          obtain ⟨o, ho⟩ := ih exc outs hclean'.2
          exact ⟨o, by simp [processItems, ho, countExceptions,
            List.countP_cons, isNodeExceptionEvent]⟩
      | parallelBranchRunFailed pid err =>
          obtain ⟨o, ho⟩ := ih exc outs hclean'.2
          exact ⟨o, by simp [processItems, ho, countExceptions,
            List.countP_cons, isNodeExceptionEvent]⟩
      | otherEvent =>
          obtain ⟨o, ho⟩ := ih exc outs hclean'.2
          exact ⟨o, by simp [processItems, ho, countExceptions,
            List.countP_cons, isNodeExceptionEvent]⟩

lemma processItems_terminal_count (inner : List (InnerEvent α)) :
    ∀ exc outs, (processItems inner exc outs).1.countP isTerminalEvent =
      if ((processItems inner exc outs).2).isSome then 0 else 1 := by
  induction inner with
  | nil => intro exc outs; simp [processItems]
  | cons e rest ih =>
      intro exc outs
      cases e <;>
        simp [processItems, isTerminalEvent, List.countP_cons, ih]

lemma partial_not_mem_processItems (inner : List (InnerEvent α)) :
    ∀ exc outs c o, GraphEngineEvent.graphRunPartialSucceeded c o ∉
      (processItems inner exc outs).1 := by
  induction inner with
  | nil => intro exc outs c o; simp [processItems]
  | cons e rest ih =>
      intro exc outs c o
      cases e <;> simp [processItems, ih]

lemma runOuter_terminal_count (inner : List (InnerEvent α))
    (term : InnerTermination) :
    (runOuter inner term).countP isTerminalEvent = 1 := by
  have hterm := processItems_terminal_count inner 0 []
  unfold runOuter
  rcases hsnd : (processItems inner 0 []).2 with _ | ⟨exc, outs⟩
  · rw [hsnd] at hterm
    simp only [hsnd] at *
    simp [List.countP_cons, List.countP_append, isTerminalEvent, hterm]
  · rw [hsnd] at hterm
    simp only [hsnd] at *
    cases term with
    | normal =>
        by_cases hexc : exc > 0 <;>
          simp [List.countP_cons, List.countP_append, isTerminalEvent, hterm,
            hexc]
    | failedError e =>
        simp [List.countP_cons, List.countP_append, isTerminalEvent, hterm]
    | otherError e =>
        simp [List.countP_cons, List.countP_append, isTerminalEvent, hterm]

lemma runOuter_of_clean_normal (inner : List (InnerEvent α))
    (hclean : inner.all (fun e => !isNodeFailedEvent e) = true) :
    ∃ o, runOuter inner .normal =
      .graphRunStarted :: (inner.map .inner ++
        (if 0 < countExceptions inner then
          [.graphRunPartialSucceeded (countExceptions inner) o]
        else [.graphRunSucceeded o])) := by
  obtain ⟨o, ho⟩ := processItems_of_clean inner 0 [] hclean
  refine ⟨o, ?_⟩
  by_cases hexc : 0 < countExceptions inner <;> simp [runOuter, ho, hexc]

lemma runOuter_getLast_of_failedError (inner : List (InnerEvent α))
    (e : String)
    (hclean : inner.all (fun ev => !isNodeFailedEvent ev) = true) :
    (runOuter inner (.failedError e)).getLast? =
      some (.graphRunFailed e (countExceptions inner)) := by
  obtain ⟨o, ho⟩ := processItems_of_clean inner 0 [] hclean
  have : runOuter inner (.failedError e) =
      (GraphEngineEvent.graphRunStarted :: inner.map .inner) ++
        [.graphRunFailed e (countExceptions inner)] := by
    simp [runOuter, ho]
  rw [this, List.getLast?_concat]

lemma partial_mem_runOuter (inner : List (InnerEvent α))
    (term : InnerTermination) (c : Nat) (o : List (String × PVal))
    (hmem : GraphEngineEvent.graphRunPartialSucceeded c o ∈
      runOuter inner term) :
    term = .normal ∧ inner.all (fun e => !isNodeFailedEvent e) = true ∧
      0 < countExceptions inner ∧ c = countExceptions inner := by
  rcases hsnd : (processItems inner 0 []).2 with _ | ⟨exc, outs⟩
  · simp only [runOuter, hsnd] at hmem
    simp only [List.append_nil, List.mem_cons] at hmem
    rcases hmem with h | h
    · exact absurd h.symm (by simp)
    · exact absurd h (partial_not_mem_processItems inner 0 [] c o)
  · have hclean : inner.all (fun e => !isNodeFailedEvent e) = true := by
      have := processItems_snd_isSome_iff inner 0 []
      rw [hsnd] at this
      simpa using this.symm
    obtain ⟨o', ho'⟩ := processItems_of_clean inner 0 [] hclean
    have hexc : exc = countExceptions inner := by
      have hsnd' := congrArg Prod.snd ho'
      simp only [hsnd] at hsnd'
      have h2 : countExceptions inner = exc := by
        simpa using congrArg (Option.map Prod.fst) hsnd'.symm
      omega
    simp only [runOuter, hsnd] at hmem
    cases term with
    | normal =>
        by_cases h0 : exc > 0
        · simp only [h0, if_pos, List.mem_cons, List.mem_append,
            List.mem_singleton] at hmem
          rcases hmem with h | h | h
          · exact absurd h.symm (by simp)
          · exact absurd h (partial_not_mem_processItems inner 0 [] c o)
          · have hco : c = exc ∧ o = outs := by simpa using h
            exact ⟨rfl, hclean, by omega, by omega⟩
        · simp only [h0, if_neg, List.mem_cons, List.mem_append,
            List.mem_singleton] at hmem
          rcases hmem with h | h | h
          · exact absurd h.symm (by simp)
          · exact absurd h (partial_not_mem_processItems inner 0 [] c o)
          · simp at h
    | failedError e =>
        simp only [List.mem_cons, List.mem_append, List.mem_singleton] at hmem
        rcases hmem with h | h | h
        · exact absurd h.symm (by simp)
        · exact absurd h (partial_not_mem_processItems inner 0 [] c o)
        · simp at h
    | otherError e =>
        simp only [List.mem_cons, List.mem_append, List.mem_singleton] at hmem
        rcases hmem with h | h | h
        · exact absurd h.symm (by simp)
        · exact absurd h (partial_not_mem_processItems inner 0 [] c o)
        · simp at h

lemma runOuter_getLast_of_otherError (inner : List (InnerEvent α))
    (e : String)
    (hclean : inner.all (fun ev => !isNodeFailedEvent ev) = true) :
    (runOuter inner (.otherError e)).getLast? =
      some (.graphRunFailed e (countExceptions inner)) := by
  obtain ⟨o, ho⟩ := processItems_of_clean inner 0 [] hclean
  have : runOuter inner (.otherError e) =
      (GraphEngineEvent.graphRunStarted :: inner.map .inner) ++
        [.graphRunFailed e (countExceptions inner)] := by
    simp [runOuter, ho]
  rw [this, List.getLast?_concat]

/-! ## Claim C1 -/

/-- C1: every run of `GraphEngine.run()` emits exactly one terminal event
among `GraphRunSucceeded`, `GraphRunPartialSucceeded`, `GraphRunFailed`
— over any inner event stream `_run` can produce and any way the inner
generator terminates.  The terminal is `GraphRunPartialSucceeded` iff the
generator terminated without a fatal error (normal exhaustion, no
`NodeRunFailedEvent`) and at least one node exception was handled, and in
that case its `exceptions_count` equals the number of
`NodeRunExceptionEvent` emissions. -/
theorem claim_C1_single_terminal_event (inner : List (InnerEvent α))
    (term : InnerTermination) :
    (runOuter inner term).countP isTerminalEvent = 1 ∧
    ((∃ c o, GraphEngineEvent.graphRunPartialSucceeded c o ∈
        runOuter inner term) ↔
      (term = .normal ∧ inner.all (fun e => !isNodeFailedEvent e) = true ∧
        0 < countExceptions inner)) ∧
    (∀ c o, GraphEngineEvent.graphRunPartialSucceeded c o ∈
        runOuter inner term → c = countExceptions inner) := by
  refine ⟨runOuter_terminal_count inner term, ⟨?_, ?_⟩, ?_⟩
  · rintro ⟨c, o, hmem⟩
    have h := partial_mem_runOuter inner term c o hmem
    exact ⟨h.1, h.2.1, h.2.2.1⟩
  · rintro ⟨hterm, hclean, hexc⟩
    subst hterm
    obtain ⟨o, ho⟩ := runOuter_of_clean_normal inner hclean
    refine ⟨countExceptions inner, o, ?_⟩
    rw [ho]
    simp [hexc]
  · intro c o hmem
    exact (partial_mem_runOuter inner term c o hmem).2.2.2

/-- Witness for C1 at a concrete stream: one handled exception and normal
termination produce a partial-succeeded terminal; the terminal count is
one. -/
theorem claim_C1_single_terminal_event_witness :
    (runOuter ([.nodeRunException 0 "boom"] : List (InnerEvent Nat))
      .normal).countP isTerminalEvent = 1 ∧
    (∃ c o, GraphEngineEvent.graphRunPartialSucceeded c o ∈
      runOuter ([.nodeRunException 0 "boom"] : List (InnerEvent Nat))
        .normal) :=
  ⟨(claim_C1_single_terminal_event [.nodeRunException 0 "boom"] .normal).1,
    (claim_C1_single_terminal_event [.nodeRunException 0 "boom"]
      .normal).2.1.2 ⟨rfl, by decide, by decide⟩⟩

/-! ## Claim C2: execution-step bound on linear chains -/

lemma runNode_chainNode (g : Graph Nat) (i : Nat) (st : EngineState Nat) :
    runNode g (chainNode i) st =
      ([.nodeRunStarted i, .nodeRunSucceeded i .other []], st, .success,
        some { status := .succeeded }) := by
  simp [runNode, runNodeLoop, finishResult, chainNode, continueOnError,
    appendOutputs, httpCoerce]

lemma chainNode_type (i : Nat) : (chainNode i).type_ = .other := rfl

lemma chainGraph_config (k i : Nat) :
    (chainGraph k).nodeIdConfigMapping i =
      if i < k then some (chainNode i) else none := rfl

lemma chainGraph_edges (k i : Nat) :
    (chainGraph k).edgeMapping i =
      if i + 1 < k then [{ targetNodeId := i + 1 }] else [] := rfl

lemma chainGraph_root (k : Nat) : (chainGraph k).rootNodeId = 0 := rfl

/-- One driver step on the chain when the bound has tripped
(`node_run_steps > max_execution_steps`). -/
lemma drive_chain_trip (k N : Nat) (ce : Nat → Bool) (fuel i : Nat)
    (st : EngineState Nat) (hiN : st.nodeRunSteps > N) :
    drive (chainGraph k) ce N none (fuel + 1) i st =
      ([], st, .failedError ("Max steps " ++ toString N ++ " reached.")) := by
  simp only [drive]
  rw [if_pos hiN]

/-- One driver step on the chain at its last node (no outgoing edge). -/
lemma drive_chain_last (k N : Nat) (ce : Nat → Bool) (fuel i : Nat)
    (st : EngineState Nat) (hiN : ¬ st.nodeRunSteps > N) (hik : i < k)
    (hk1 : ¬ i + 1 < k) :
    drive (chainGraph k) ce N none (fuel + 1) i st =
      ([.nodeRunStarted i, .nodeRunSucceeded i .other []],
        { st with nodeRunSteps := st.nodeRunSteps + 1 }, .normal) := by
  simp only [drive]
  rw [if_neg hiN, chainGraph_config, if_pos hik]
  simp [runNode_chainNode, chainNode_type, chainGraph_edges, hk1,
    isNodeStartedEvent, List.countP_cons]

/-- One driver step on the chain at an interior node: run it, then
continue at the successor with the step counter advanced. -/
lemma drive_chain_step (k N : Nat) (ce : Nat → Bool) (fuel i : Nat)
    (st : EngineState Nat) (hiN : ¬ st.nodeRunSteps > N) (hik : i < k)
    (hk1 : i + 1 < k) :
    drive (chainGraph k) ce N none (fuel + 1) i st =
      (let rest := drive (chainGraph k) ce N none fuel (i + 1)
        { st with nodeRunSteps := st.nodeRunSteps + 1 }
       (.nodeRunStarted i :: .nodeRunSucceeded i .other [] :: rest.1,
        rest.2)) := by
  simp only [drive]
  rw [if_neg hiN, chainGraph_config, if_pos hik]
  simp [runNode_chainNode, chainNode_type, chainGraph_edges, hk1,
    isNodeStartedEvent, List.countP_cons]

lemma drive_chainGraph_ok (k N : Nat) (ce : Nat → Bool) (hkN : k ≤ N + 1) :
    ∀ n i (st : EngineState Nat), i + n = k → st.nodeRunSteps = i → 0 < n →
      ∃ st', drive (chainGraph k) ce N none n i st =
        (chainEvents i n, st', .normal) ∧ st'.nodeRunSteps = k := by
  intro n
  induction n with
  | zero => intro i st _ _ h0; omega
  | succ m ih =>
      intro i st hik hsteps _
      have hiN : ¬ st.nodeRunSteps > N := by omega
      have hk : i < k := by omega
      rcases Nat.eq_zero_or_pos m with hm | hm
      · subst hm
        have hk1 : ¬ i + 1 < k := by omega
        refine ⟨{ st with nodeRunSteps := st.nodeRunSteps + 1 }, ?_, by
          simp only []
          omega⟩
        rw [drive_chain_last k N ce 0 i st hiN hk hk1]
        simp [chainEvents]
      · have hk1 : i + 1 < k := by omega
        obtain ⟨st', hdrive, hsteps'⟩ :=
          ih (i + 1) { st with nodeRunSteps := st.nodeRunSteps + 1 }
            (by omega) (by simp only []; omega) hm
        refine ⟨st', ?_, hsteps'⟩
        rw [drive_chain_step k N ce m i st hiN hk hk1]
        simp [hdrive, chainEvents]

lemma drive_chainGraph_maxsteps (k N : Nat) (ce : Nat → Bool)
    (hk : N + 2 ≤ k) :
    ∀ m i (st : EngineState Nat), i + (m + 1) = N + 2 →
      st.nodeRunSteps = i →
      ∃ st', drive (chainGraph k) ce N none (m + 1) i st =
        (chainEvents i m, st',
          .failedError ("Max steps " ++ toString N ++ " reached.")) := by
  intro m
  induction m with
  | zero =>
      intro i st him hsteps
      have hiN : st.nodeRunSteps > N := by omega
      exact ⟨st, by rw [drive_chain_trip k N ce 0 i st hiN]; simp [chainEvents]⟩
  | succ mm ih =>
      intro i st him hsteps
      have hiN : ¬ st.nodeRunSteps > N := by omega
      have hik : i < k := by omega
      have hk1 : i + 1 < k := by omega
      obtain ⟨st', hdrive⟩ :=
        ih (i + 1) { st with nodeRunSteps := st.nodeRunSteps + 1 }
          (by omega) (by simp only []; omega)
      refine ⟨st', ?_⟩
      rw [drive_chain_step k N ce (mm + 1) i st hiN hik hk1]
      simp [hdrive, chainEvents]

lemma processItems_chainEvents (n : Nat) :
    ∀ i exc outs, processItems (chainEvents i n) exc outs =
      ((chainEvents i n).map .inner, some (exc, outs)) := by
  induction n with
  | zero => intro i exc outs; simp [chainEvents, processItems]
  | succ m ih =>
      intro i exc outs
      simp [chainEvents, processItems, ih]

lemma chainEvents_counts (n : Nat) :
    ∀ i, (chainEvents i n).countP isNodeStartedEvent = n ∧
      (chainEvents i n).countP (fun e =>
        match e with
        | .nodeRunSucceeded _ _ _ => true
        | _ => false) = n := by
  induction n with
  | zero => intro i; simp [chainEvents]
  | succ m ih =>
      intro i
      simp [chainEvents, List.countP_cons, isNodeStartedEvent, ih (i + 1)]

/-- C2 (amended): with `max_execution_steps = N ≥ 1`, a linear chain of
`N` nodes runs to `GraphRunSucceeded`; a chain of `N + 1` nodes *also*
runs to `GraphRunSucceeded` (the bounds check `node_run_steps >
max_execution_steps` is strict and performed before starting a node, so
it first trips when an `(N+2)`-th node is about to run); a chain of
`N + 2` nodes emits `GraphRunFailed("Max steps N reached.")` after the
`(N+1)`-th `NodeRunSucceeded`, the `(N+2)`-th node never being started
(exactly `N+1` `NodeRunStarted` and `NodeRunSucceeded` events occur). -/
theorem claim_C2_amended_max_steps (N : Nat) (ce : Nat → Bool)
    (hN : 1 ≤ N) :
    (engineRun (chainGraph N) ce N N =
      .graphRunStarted :: ((chainEvents 0 N).map .inner ++
        [.graphRunSucceeded []])) ∧
    (engineRun (chainGraph (N + 1)) ce N (N + 1) =
      .graphRunStarted :: ((chainEvents 0 (N + 1)).map .inner ++
        [.graphRunSucceeded []])) ∧
    (engineRun (chainGraph (N + 2)) ce N (N + 2) =
      .graphRunStarted :: ((chainEvents 0 (N + 1)).map .inner ++
        [.graphRunFailed ("Max steps " ++ toString N ++ " reached.") 0])) ∧
    ((chainEvents 0 (N + 1)).countP isNodeStartedEvent = N + 1) ∧
    ((chainEvents 0 (N + 1)).countP (fun e =>
        match e with
        | .nodeRunSucceeded _ _ _ => true
        | _ => false) = N + 1) := by
  obtain ⟨stA, hA, _⟩ :=
    drive_chainGraph_ok N N ce (by omega) N 0 {} (by omega) rfl (by omega)
  obtain ⟨stB, hB, _⟩ :=
    drive_chainGraph_ok (N + 1) N ce (by omega) (N + 1) 0 {} (by omega) rfl
      (by omega)
  obtain ⟨stC, hC⟩ :=
    drive_chainGraph_maxsteps (N + 2) N ce (by omega) (N + 1) 0 {}
      (by omega) rfl
  refine ⟨?_, ?_, ?_, (chainEvents_counts (N + 1) 0).1,
    (chainEvents_counts (N + 1) 0).2⟩
  · simp [engineRun, chainGraph_root, hA, terminationOfOutcome, runOuter,
      processItems_chainEvents]
  · simp [engineRun, chainGraph_root, hB, terminationOfOutcome, runOuter,
      processItems_chainEvents]
  · simp [engineRun, chainGraph_root, hC, terminationOfOutcome, runOuter,
      processItems_chainEvents]

/-- Counterexample to C2 as stated: with `max_execution_steps = N = 1`, a
linear chain of `N + 1 = 2` always-succeeding nodes ends in
`GraphRunSucceeded` — no `GraphRunFailed` is emitted at all, because the
strict pre-check `node_run_steps > max_execution_steps` does not trip
until an `(N+2)`-th node would start. -/
theorem claim_C2_counterexample :
    engineRun (chainGraph 2) (fun _ => false) 1 5 =
      [.graphRunStarted, .inner (.nodeRunStarted 0),
        .inner (.nodeRunSucceeded 0 .other []), .inner (.nodeRunStarted 1),
        .inner (.nodeRunSucceeded 1 .other []), .graphRunSucceeded []] ∧
    (engineRun (chainGraph 2) (fun _ => false) 1 5).countP (fun e =>
        match e with
        | .graphRunFailed _ _ => true
        | _ => false) = 0 := by
  constructor
  · rfl
  · rfl

/-- Witness for the amended C2 at `N = 1`. -/
theorem claim_C2_amended_max_steps_witness :
    engineRun (chainGraph 3) (fun _ => false) 1 3 =
      .graphRunStarted :: ((chainEvents 0 2).map .inner ++
        [.graphRunFailed ("Max steps " ++ toString 1 ++ " reached.") 0]) :=
  (claim_C2_amended_max_steps 1 (fun _ => false) (by decide)).2.2.1

/-! ## Claim C3: retry loop behavior -/

/-- The expected `NodeRunRetry` events of `n` further retries starting
after attempt `retries`: indices `retries+1, …, retries+n`, each carrying
the failing attempt's error. -/
def retryEvents (node : Node α) : Nat → Nat → List (InnerEvent α)
  | _, 0 => []
  | retries, n + 1 =>
      .nodeRunRetry node.nodeId (retries + 1)
        (pyOr (node.behavior retries).error "Unknown error") ::
        retryEvents node (retries + 1) n

/-- Extract the `retry_index` of a retry event. -/
def eventRetryIndex : InnerEvent α → Nat
  | .nodeRunRetry _ i _ => i
  | _ => 0

lemma retryEvents_indices (node : Node α) :
    ∀ n retries, (retryEvents node retries n).map eventRetryIndex =
      List.range' (retries + 1) n := by
  intro n
  induction n with
  | zero => intro retries; simp [retryEvents]
  | succ m ih =>
      intro retries
      simp [retryEvents, eventRetryIndex, List.range'_succ, ih (retries + 1)]

lemma retryEvents_counts (node : Node α) :
    ∀ n retries,
      (retryEvents node retries n).countP isNodeRetryEvent = n ∧
      (retryEvents node retries n).countP isNodeFailedEvent = 0 ∧
      (retryEvents node retries n).countP isNodeExceptionEvent = 0 := by
  intro n
  induction n with
  | zero => intro retries; simp [retryEvents]
  | succ m ih =>
      intro retries
      have h := ih (retries + 1)
      simp [retryEvents, List.countP_cons, isNodeRetryEvent,
        isNodeFailedEvent, isNodeExceptionEvent, h.1, h.2.1, h.2.2]

lemma httpCoerce_error (node : Node α) (retries : Nat) (r : RunResult) :
    (httpCoerce node retries r).error = r.error := by
  unfold httpCoerce
  split <;> rfl

/-- One retry-loop iteration on a failing attempt that retries. -/
lemma runNodeLoop_step (g : Graph α) (node : Node α) (retries fuel : Nat)
    (st : EngineState α)
    (hfail : (node.behavior retries).status = .failed)
    (hcond : node.retry = true ∧ retries < node.maxRetries) :
    runNodeLoop g node retries (fuel + 1) st =
      (.nodeRunRetry node.nodeId (retries + 1)
          (pyOr (node.behavior retries).error "Unknown error") ::
        (runNodeLoop g node (retries + 1) fuel st).1,
       (runNodeLoop g node (retries + 1) fuel st).2) := by
  simp only [runNodeLoop]
  rw [if_pos hfail, if_pos hcond, httpCoerce_error]

/-- One retry-loop iteration on a failing attempt that does not retry:
finish the (possibly HTTP-coerced) result. -/
lemma runNodeLoop_final (g : Graph α) (node : Node α) (retries fuel : Nat)
    (st : EngineState α)
    (hfail : (node.behavior retries).status = .failed)
    (hnot : ¬ (node.retry = true ∧ retries < node.maxRetries)) :
    runNodeLoop g node retries (fuel + 1) st =
      finishResult g node (httpCoerce node retries (node.behavior retries))
        st := by
  simp only [runNodeLoop]
  rw [if_pos hfail, if_neg hnot]

/-- The retry loop on an always-failing node with retry enabled: from
attempt `retries` with `n` retries left, it emits the retry events and
then finishes the (coerced) final attempt. -/
lemma runNodeLoop_alwaysFail (g : Graph α) (node : Node α)
    (hretry : node.retry = true)
    (hfail : ∀ i, (node.behavior i).status = .failed) :
    ∀ n retries (st : EngineState α), retries + n = node.maxRetries →
      runNodeLoop g node retries (n + 1) st =
        (retryEvents node retries n ++
          (finishResult g node
            (httpCoerce node node.maxRetries
              (node.behavior node.maxRetries)) st).1,
         (finishResult g node
            (httpCoerce node node.maxRetries
              (node.behavior node.maxRetries)) st).2) := by
  intro n
  induction n with
  | zero =>
      intro retries st hr
      have hr0 : retries = node.maxRetries := by omega
      rw [runNodeLoop_final g node retries 0 st (hfail retries)
        (by omega), hr0]
      simp [retryEvents]
  | succ m ih =>
      intro retries st hr
      rw [runNodeLoop_step g node retries (m + 1) st (hfail retries)
        ⟨hretry, by omega⟩, ih (retries + 1) st (by omega)]
      simp [retryEvents]

/-- C3 (amended): a node with retry enabled, `max_retries = R > 0`, no
`continue_on_error`, whose `run()` always completes failed, and which is
not an HTTP-request node whose exhausted final attempt carries non-empty
outputs (such an attempt is coerced to success by the HTTP exception
policy of lines 929-935), makes `_run_node` emit exactly `R`
`NodeRunRetry` events with `retry_index` `1, 2, …, R` in order, followed
by exactly one `NodeRunFailedEvent`, and stop (the node's final result is
that of attempt `R`; no further attempt is made). -/
theorem claim_C3_amended_retry_sequence (g : Graph α) (node : Node α)
    (st : EngineState α) (R : Nat) (hretry : node.retry = true)
    (hR : node.maxRetries = R) (hRpos : 0 < R)
    (hstrat : node.errorStrategy = none)
    (hfail : ∀ i, (node.behavior i).status = .failed)
    (hnothttp : ¬(node.type_ = .httpRequest ∧
      (node.behavior R).outputs ≠ [])) :
    (runNode g node st).1 =
      .nodeRunStarted node.nodeId :: (retryEvents node 0 R ++
        [.nodeRunFailed node.nodeId (node.behavior R).error]) ∧
    (runNode g node st).1.countP isNodeRetryEvent = R ∧
    (runNode g node st).1.countP isNodeFailedEvent = 1 ∧
    (retryEvents node 0 R).map eventRetryIndex = List.range' 1 R ∧
    (runNode g node st).2.2.2 = some (node.behavior R) := by
  have hco : continueOnError node = false := by
    simp [continueOnError, hstrat]
  have hcoerce : httpCoerce node node.maxRetries
      (node.behavior node.maxRetries) = node.behavior node.maxRetries := by
    unfold httpCoerce
    rw [if_neg]
    rw [hR]
    rintro ⟨-, -, hhttp, houts, -⟩
    exact hnothttp ⟨hhttp, houts⟩
  have hfin : finishResult g node (node.behavior node.maxRetries) st =
      ([.nodeRunFailed node.nodeId (node.behavior node.maxRetries).error],
        st, .failed, some (node.behavior node.maxRetries)) := by
    unfold finishResult
    rw [if_pos (hfail node.maxRetries), hco]
    simp
  have hloop := runNodeLoop_alwaysFail g node hretry hfail R 0 st (by omega)
  rw [hcoerce, hfin] at hloop
  unfold runNode
  rw [hR] at hloop ⊢
  rw [hloop]
  have hcounts := retryEvents_counts node R 0
  refine ⟨rfl, ?_, ?_, retryEvents_indices node R 0, rfl⟩
  · simp [List.countP_cons, List.countP_append, isNodeRetryEvent,
      hcounts.1]
  · simp [List.countP_cons, List.countP_append, isNodeFailedEvent,
      hcounts.2.1]

/-- Counterexample to C3 as stated: an always-failing HTTP-request node
with retry enabled, `max_retries = 1`, no `continue_on_error`, whose
failures carry outputs.  It satisfies every hypothesis of the claim, yet
its exhausted final attempt is coerced to success: the emitted sequence is
`NodeRunStarted, NodeRunRetry(1), NodeRunSucceeded` — no
`NodeRunFailedEvent` at all. -/
theorem claim_C3_counterexample :
    (runNode
      ({ nodeIdConfigMapping := fun _ => none, edgeMapping := fun _ => [],
         rootNodeId := 0 } : Graph Nat)
      { nodeId := 0, type_ := .httpRequest, retry := true, maxRetries := 1,
        behavior := fun _ =>
          { status := .failed, error := some "boom",
            outputs := [("body", some "partial")] } }
      {}).1 =
      [.nodeRunStarted 0, .nodeRunRetry 0 1 "boom",
        .nodeRunSucceeded 0 .httpRequest [("body", some "partial")]] ∧
    (runNode
      ({ nodeIdConfigMapping := fun _ => none, edgeMapping := fun _ => [],
         rootNodeId := 0 } : Graph Nat)
      { nodeId := 0, type_ := .httpRequest, retry := true, maxRetries := 1,
        behavior := fun _ =>
          { status := .failed, error := some "boom",
            outputs := [("body", some "partial")] } }
      {}).1.countP isNodeFailedEvent = 0 := by
  constructor
  · rfl
  · rfl

/-- Witness for the amended C3: a plain always-failing node with
`max_retries = 2`. -/
theorem claim_C3_amended_retry_sequence_witness :
    (runNode
      ({ nodeIdConfigMapping := fun _ => none, edgeMapping := fun _ => [],
         rootNodeId := 0 } : Graph Nat)
      { nodeId := 0, type_ := .other, retry := true, maxRetries := 2,
        behavior := fun _ => { status := .failed, error := some "boom" } }
      {}).1.countP isNodeRetryEvent = 2 :=
  (claim_C3_amended_retry_sequence
    ({ nodeIdConfigMapping := fun _ => none, edgeMapping := fun _ => [],
       rootNodeId := 0 } : Graph Nat)
    { nodeId := 0, type_ := .other, retry := true, maxRetries := 2,
      behavior := fun _ => { status := .failed, error := some "boom" } }
    {} 2 rfl rfl (by decide) rfl (fun i => rfl) (by simp)).2.1

/-! ## Claim C4: continue-on-error rewriting -/

/-- The attempt index of the final completion of an always-failing node:
`max_retries` when retry is enabled, else `0`. -/
def effectiveRetries (node : Node α) : Nat :=
  if node.retry then node.maxRetries else 0

/-- `_run_node` on an always-failing behavior: the start event, the retry
events (when retry is enabled), then the finish of the final (possibly
HTTP-coerced) attempt. -/
lemma runNode_alwaysFail (g : Graph α) (node : Node α)
    (st : EngineState α)
    (hfail : ∀ i, (node.behavior i).status = .failed) :
    runNode g node st =
      (.nodeRunStarted node.nodeId ::
        ((if node.retry then retryEvents node 0 node.maxRetries else []) ++
          (finishResult g node
            (httpCoerce node (effectiveRetries node)
              (node.behavior (effectiveRetries node))) st).1),
       (finishResult g node
          (httpCoerce node (effectiveRetries node)
            (node.behavior (effectiveRetries node))) st).2) := by
  unfold runNode effectiveRetries
  cases hretry : node.retry with
  | true =>
      rw [runNodeLoop_alwaysFail g node hretry hfail node.maxRetries 0 st
        (by omega)]
      simp
  | false =>
      rw [runNodeLoop_final g node 0 node.maxRetries st (hfail 0)
        (by simp [hretry])]
      simp

/-- C4: a node that completes failed with `continue_on_error` set gets its
error written into the variable pool under its node id; the rewritten
result has status `EXCEPTION` with `metadata.error_strategy` recording the
strategy; under `default_value` the outputs are the node's default-value
dictionary extended with `error_message`/`error_type`, under `fail_branch`
they are exactly `{error_message, error_type}` with `edge_source_handle =
failed` when the node has outgoing edges; a `NodeRunExceptionEvent` (and
no `NodeRunFailedEvent`) is emitted, and the route status is `EXCEPTION`
so the driver continues. -/
theorem claim_C4_continue_on_error (g : Graph α) (node : Node α)
    (st : EngineState α) (strat : ErrorStrategy)
    (hstrat : node.errorStrategy = some strat)
    (hfail : ∀ i, (node.behavior i).status = .failed) :
    (((node.nodeId, "error_message"),
        (node.behavior (effectiveRetries node)).error) ∈
      (runNode g node st).2.1.pool ∧
     ((node.nodeId, "error_type"),
        (node.behavior (effectiveRetries node)).errorType) ∈
      (runNode g node st).2.1.pool) ∧
    ((runNode g node st).2.2.2 = some
      (handleContinueOnError g node
        (node.behavior (effectiveRetries node)) st).1) ∧
    ((handleContinueOnError g node
        (node.behavior (effectiveRetries node)) st).1.status = .exception ∧
     (handleContinueOnError g node
        (node.behavior (effectiveRetries node))
        st).1.metadata.errorStrategy = some strat) ∧
    (strat = .defaultValue →
      (handleContinueOnError g node
          (node.behavior (effectiveRetries node)) st).1.outputs =
        dictInsert
          (dictInsert node.defaultValueDict "error_message"
            (node.behavior (effectiveRetries node)).error)
          "error_type" (node.behavior (effectiveRetries node)).errorType) ∧
    (strat = .failBranch →
      (handleContinueOnError g node
          (node.behavior (effectiveRetries node)) st).1.outputs =
        [("error_message", (node.behavior (effectiveRetries node)).error),
         ("error_type", (node.behavior (effectiveRetries node)).errorType)] ∧
      (g.edgeMapping node.nodeId ≠ [] →
        (handleContinueOnError g node
            (node.behavior (effectiveRetries node))
            st).1.edgeSourceHandle = some .failed)) ∧
    ((runNode g node st).1.getLast? = some
      (.nodeRunException node.nodeId
        (pyOr (node.behavior (effectiveRetries node)).error
          "System Error"))) ∧
    ((runNode g node st).1.countP isNodeFailedEvent = 0) ∧
    ((runNode g node st).2.2.1 = .exception) := by
  have hco : continueOnError node = true := by
    simp [continueOnError, hstrat]
  set r := node.behavior (effectiveRetries node) with hr
  have hcoerce : httpCoerce node (effectiveRetries node) r = r := by
    unfold httpCoerce
    rw [if_neg]
    rintro ⟨-, -, -, -, hnc⟩
    exact hnc (by simp [continueOnError, hstrat])
  have hr2e : (handleContinueOnError g node r st).1.error = r.error := by
    unfold handleContinueOnError
    rw [hstrat]
    cases strat <;> rfl
  have hfin : finishResult g node r st =
      ([.nodeRunException node.nodeId (pyOr r.error "System Error")],
        appendOutputs (handleContinueOnError g node r st).2 node.nodeId
          (handleContinueOnError g node r st).1.outputs,
        .exception, some (handleContinueOnError g node r st).1) := by
    unfold finishResult
    rw [if_pos (hfail (effectiveRetries node)), hco]
    simp [hr2e]
  have hrun := runNode_alwaysFail g node st hfail
  rw [hcoerce, hfin] at hrun
  have hpool2 : (handleContinueOnError g node r st).2.pool =
      st.pool ++ [((node.nodeId, "error_message"), r.error),
        ((node.nodeId, "error_type"), r.errorType)] := by
    unfold handleContinueOnError
    rw [hstrat]
    cases strat <;> rfl
  refine ⟨?_, ?_, ?_, ?_, ?_, ?_, ?_, ?_⟩
  · constructor
    · rw [hrun]
      simp only [appendOutputs, hpool2]
      simp
    · rw [hrun]
      simp only [appendOutputs, hpool2]
      simp
  · rw [hrun]
  · constructor
    · unfold handleContinueOnError
      rw [hstrat]
      cases strat <;> rfl
    · unfold handleContinueOnError
      rw [hstrat]
      cases strat <;> rfl
  · intro hdv
    subst hdv
    unfold handleContinueOnError
    rw [hstrat]
  · intro hfb
    subst hfb
    constructor
    · unfold handleContinueOnError
      rw [hstrat]
    · intro hedges
      unfold handleContinueOnError
      rw [hstrat]
      simp [hedges]
  · rw [hrun]
    have : InnerEvent.nodeRunStarted node.nodeId ::
        ((if node.retry then retryEvents node 0 node.maxRetries else []) ++
          [.nodeRunException node.nodeId (pyOr r.error "System Error")]) =
        (InnerEvent.nodeRunStarted node.nodeId ::
          (if node.retry then retryEvents node 0 node.maxRetries else [])) ++
          [.nodeRunException node.nodeId (pyOr r.error "System Error")] := by
      simp
    rw [this, List.getLast?_concat]
  · rw [hrun]
    cases hretry : node.retry
    · simp [List.countP_cons, isNodeFailedEvent]
    · simp [List.countP_cons, List.countP_append, isNodeFailedEvent,
        (retryEvents_counts node node.maxRetries 0).2.1]
  · rw [hrun]

/-- Witness for C4: a concrete always-failing default-value node. -/
theorem claim_C4_continue_on_error_witness :
    ((0, "error_message"), some "boom") ∈
      (runNode
        ({ nodeIdConfigMapping := fun _ => none, edgeMapping := fun _ => [],
           rootNodeId := 0 } : Graph Nat)
        { nodeId := 0, type_ := .other,
          errorStrategy := some .defaultValue,
          defaultValueDict := [("x", some "0")],
          behavior := fun _ =>
            { status := .failed, error := some "boom",
              errorType := some "ValueError" } }
        {}).2.1.pool :=
  ((claim_C4_continue_on_error
    ({ nodeIdConfigMapping := fun _ => none, edgeMapping := fun _ => [],
       rootNodeId := 0 } : Graph Nat)
    { nodeId := 0, type_ := .other,
      errorStrategy := some .defaultValue,
      defaultValueDict := [("x", some "0")],
      behavior := fun _ =>
        { status := .failed, error := some "boom",
          errorType := some "ValueError" } }
    {} .defaultValue rfl (fun i => rfl)).1).1

/-! ## Claim C5: worker-pool submit cap -/

lemma submitBranches_overflow :
    ∀ k (st : PoolState), st.submitCount ≤ st.maxSubmitCount →
      st.maxSubmitCount < st.submitCount + k →
      submitBranches st k = .error ("Max submit count " ++
        toString st.maxSubmitCount ++ " of workflow thread pool reached.") := by
  intro k
  induction k with
  | zero => intro st hle hlt; omega
  | succ n ih =>
      intro st hle hlt
      by_cases hfull : st.maxSubmitCount < st.submitCount + 1
      · have : st.submitCount = st.maxSubmitCount := by omega
        simp [submitBranches, PoolState.submit, checkIsFull, hfull]
      · have hok : ¬ st.submitCount + 1 > st.maxSubmitCount := by omega
        simp only [submitBranches, PoolState.submit, checkIsFull,
          gt_iff_lt, hok, if_neg, if_false]
        exact ih _ (by simp only []; omega) (by simp only []; omega)

/-- C5: `GraphEngineThreadPool.submit` fails immediately (raising the
`ValueError` that names the max submit count) on any call made while the
in-flight submission count exceeds the cap, and succeeds whenever the
submission itself does not take the count beyond the cap; a dispatch loop
submitting more than `max_submit_count` branches to a fresh pool raises
that overflow error, and a run whose inner generator dies with it
terminates with a `GraphRunFailed` event citing it. -/
theorem claim_C5_submit_cap :
    (∀ st : PoolState, st.maxSubmitCount < st.submitCount →
      (st.submit).2 = .error ("Max submit count " ++
        toString st.maxSubmitCount ++
        " of workflow thread pool reached.")) ∧
    (∀ st : PoolState, st.submitCount + 1 ≤ st.maxSubmitCount →
      (st.submit).2 = .ok ()) ∧
    (∀ K k : Nat, K < k →
      submitBranches (PoolState.fresh K) k = .error ("Max submit count " ++
        toString K ++ " of workflow thread pool reached.")) ∧
    (∀ (inner : List (InnerEvent Nat)) (e : String),
      inner.all (fun ev => !isNodeFailedEvent ev) = true →
      (runOuter inner (.otherError e)).getLast? =
        some (.graphRunFailed e (countExceptions inner))) := by
  refine ⟨?_, ?_, ?_, ?_⟩
  · intro st hlt
    have : st.submitCount + 1 > st.maxSubmitCount := by omega
    simp [PoolState.submit, checkIsFull, this]
  · intro st hle
    have : ¬ st.submitCount + 1 > st.maxSubmitCount := by omega
    simp [PoolState.submit, checkIsFull, this]
  · intro K k hK
    exact submitBranches_overflow k (PoolState.fresh K) (by simp [PoolState.fresh])
      (by simp [PoolState.fresh]; omega)
  · intro inner e hclean
    exact runOuter_getLast_of_otherError inner e hclean

/-- Witness for C5 at concrete pools: an over-cap submit fails with the
named error, an in-cap submit succeeds, three submissions to a fresh
two-slot pool overflow, and the overflow surfaces as `GraphRunFailed`. -/
theorem claim_C5_submit_cap_witness :
    ((⟨2, 3, 2, 1⟩ : PoolState).submit).2 =
      .error "Max submit count 2 of workflow thread pool reached." ∧
    ((⟨2, 1, 1, 0⟩ : PoolState).submit).2 = .ok () ∧
    submitBranches (PoolState.fresh 2) 3 =
      .error "Max submit count 2 of workflow thread pool reached." ∧
    (runOuter ([] : List (InnerEvent Nat))
      (.otherError "Max submit count 2 of workflow thread pool reached.")
      ).getLast? = some (.graphRunFailed
        "Max submit count 2 of workflow thread pool reached." 0) := by
  refine ⟨?_, ?_, ?_, ?_⟩
  · exact claim_C5_submit_cap.1 ⟨2, 3, 2, 1⟩ (by decide)
  · exact claim_C5_submit_cap.2.1 ⟨2, 1, 1, 0⟩ (by decide)
  · exact claim_C5_submit_cap.2.2.1 2 3 (by decide)
  · exact claim_C5_submit_cap.2.2.2 [] _ (by decide)

/-! ## Claim C6: HTTP-request exception policy -/

/-- C6: in `_run_node`, a failed completion is coerced to `SUCCEEDED` iff
the node is an HTTP-request node, the current `retries` equals
`max_retries`, the result carries non-empty outputs, and
`continue_on_error` is unset; in every other situation the result passes
through unchanged.  On an always-failing HTTP node with outputs and retry
enabled, the run therefore ends with a `NodeRunSucceededEvent` carrying
those outputs, which are appended to the variable pool. -/
theorem claim_C6_http_coercion :
    (∀ (node : Node Nat) (retries : Nat) (r : RunResult),
      ((httpCoerce node retries r).status = .succeeded ∧
        r.status = .failed) ↔
      (r.status = .failed ∧ retries = node.maxRetries ∧
        node.type_ = .httpRequest ∧ r.outputs ≠ [] ∧
        continueOnError node = false)) ∧
    (∀ (node : Node Nat) (retries : Nat) (r : RunResult),
      ¬(r.status = .failed ∧ retries = node.maxRetries ∧
        node.type_ = .httpRequest ∧ r.outputs ≠ [] ∧
        continueOnError node = false) → httpCoerce node retries r = r) ∧
    (∀ (g : Graph Nat) (node : Node Nat) (st : EngineState Nat),
      node.type_ = .httpRequest → node.retry = true →
      node.errorStrategy = none →
      (∀ i, (node.behavior i).status = .failed) →
      (node.behavior node.maxRetries).outputs ≠ [] →
      (runNode g node st).1.getLast? = some
        (.nodeRunSucceeded node.nodeId .httpRequest
          (node.behavior node.maxRetries).outputs) ∧
      (runNode g node st).2.1.pool = st.pool ++
        ((node.behavior node.maxRetries).outputs.map fun kv =>
          ((node.nodeId, kv.1), kv.2))) := by
  have hcoerce_pos : ∀ (node : Node Nat) (retries : Nat) (r : RunResult),
      (r.status = .failed ∧ retries = node.maxRetries ∧
        node.type_ = .httpRequest ∧ r.outputs ≠ [] ∧
        continueOnError node = false) →
      httpCoerce node retries r = { r with status := .succeeded } := by
    intro node retries r h
    unfold httpCoerce
    rw [if_pos]
    exact ⟨h.1, h.2.1, h.2.2.1, h.2.2.2.1, by simp [h.2.2.2.2]⟩
  have hcoerce_neg : ∀ (node : Node Nat) (retries : Nat) (r : RunResult),
      ¬(r.status = .failed ∧ retries = node.maxRetries ∧
        node.type_ = .httpRequest ∧ r.outputs ≠ [] ∧
        continueOnError node = false) → httpCoerce node retries r = r := by
    intro node retries r h
    unfold httpCoerce
    rw [if_neg]
    rintro ⟨h1, h2, h3, h4, h5⟩
    exact h ⟨h1, h2, h3, h4, by simpa using h5⟩
  refine ⟨?_, hcoerce_neg, ?_⟩
  · intro node retries r
    constructor
    · rintro ⟨hsucc, hfailed⟩
      by_contra hnot
      rw [hcoerce_neg node retries r hnot] at hsucc
      rw [hfailed] at hsucc
      exact absurd hsucc (by simp)
    · intro h
      rw [hcoerce_pos node retries r h]
      exact ⟨rfl, h.1⟩
  · intro g node st hhttp hretry hstrat hfail houts
    have hco : continueOnError node = false := by
      simp [continueOnError, hstrat]
    have hrun := runNode_alwaysFail g node st hfail
    have heff : effectiveRetries node = node.maxRetries := by
      simp [effectiveRetries, hretry]
    rw [heff] at hrun
    rw [hcoerce_pos node node.maxRetries (node.behavior node.maxRetries)
      ⟨hfail node.maxRetries, rfl, hhttp, houts, hco⟩] at hrun
    have hfin : finishResult g node
        { node.behavior node.maxRetries with status := .succeeded } st =
        ([.nodeRunSucceeded node.nodeId node.type_
            (node.behavior node.maxRetries).outputs],
          appendOutputs
            { st with totalTokens := st.totalTokens +
              ((node.behavior node.maxRetries).metadata.totalTokens.getD 0) }
            node.nodeId (node.behavior node.maxRetries).outputs,
          .success,
          some { node.behavior node.maxRetries with status := .succeeded }) := by
      unfold finishResult
      rw [if_neg (by simp), if_pos rfl]
      rw [if_neg]
      simp [hco]
    rw [hfin] at hrun
    rw [hrun]
    constructor
    · rw [hhttp]
      have : InnerEvent.nodeRunStarted node.nodeId ::
          ((if node.retry then retryEvents node 0 node.maxRetries else []) ++
            [.nodeRunSucceeded node.nodeId .httpRequest
              (node.behavior node.maxRetries).outputs]) =
          (InnerEvent.nodeRunStarted node.nodeId ::
            (if node.retry then retryEvents node 0 node.maxRetries
             else [])) ++
            [.nodeRunSucceeded node.nodeId .httpRequest
              (node.behavior node.maxRetries).outputs] := by
        simp
      rw [this, List.getLast?_concat]
    · simp [appendOutputs]

/-- Witness for C6: the coercion fires on a concrete exhausted HTTP
failure with outputs, is the identity on a non-HTTP node, and the
concrete HTTP run ends succeeded. -/
theorem claim_C6_http_coercion_witness :
    ((httpCoerce
        { nodeId := 0, type_ := .httpRequest, retry := true,
          maxRetries := 1,
          behavior := fun _ => { status := .failed } : Node Nat } 1
        { status := .failed, outputs := [("body", some "partial")] }).status
      = .succeeded ∧
      ({ status := .failed,
         outputs := [("body", some "partial")] } : RunResult).status =
        .failed) ∧
    (runNode
      ({ nodeIdConfigMapping := fun _ => none, edgeMapping := fun _ => [],
         rootNodeId := 0 } : Graph Nat)
      { nodeId := 0, type_ := .httpRequest, retry := true, maxRetries := 1,
        behavior := fun _ =>
          { status := .failed, error := some "boom",
            outputs := [("body", some "partial")] } }
      {}).1.getLast? = some (.nodeRunSucceeded 0 .httpRequest
        [("body", some "partial")]) := by
  constructor
  · exact (claim_C6_http_coercion.1
      { nodeId := 0, type_ := .httpRequest, retry := true, maxRetries := 1,
        behavior := fun _ => { status := .failed } } 1
      { status := .failed, outputs := [("body", some "partial")] }).2
      ⟨rfl, rfl, rfl, by decide, by decide⟩
  · exact (claim_C6_http_coercion.2.2
      ({ nodeIdConfigMapping := fun _ => none, edgeMapping := fun _ => [],
         rootNodeId := 0 } : Graph Nat)
      { nodeId := 0, type_ := .httpRequest, retry := true, maxRetries := 1,
        behavior := fun _ =>
          { status := .failed, error := some "boom",
            outputs := [("body", some "partial")] } }
      {} rfl rfl rfl (fun i => rfl) (by decide)).1

/-! ## Claim C7: parallel-branch monitoring loop -/

/-- An event that is neither a branch success nor a branch failure for
this `parallel_id` is forwarded without affecting the loop state. -/
lemma muxLoop_cons_passthrough (pid : String) (n : Nat)
    (e : InnerEvent α) (rest : List (InnerEvent α)) (succ : Nat)
    (hs : isBranchSucceededFor pid e = false)
    (hf : isBranchFailedFor pid e = false) :
    muxLoop pid n (e :: rest) succ =
      (e :: (muxLoop pid n rest succ).1, (muxLoop pid n rest succ).2) := by
  cases e <;>
    simp_all [muxLoop, isBranchSucceededFor, isBranchFailedFor]

lemma muxLoop_cons_succeeded (pid : String) (n : Nat)
    (rest : List (InnerEvent α)) (succ : Nat) :
    muxLoop pid n (.parallelBranchRunSucceeded pid :: rest) succ =
      if succ + 1 = n then ([.parallelBranchRunSucceeded pid], .closed)
      else (.parallelBranchRunSucceeded pid ::
              (muxLoop pid n rest (succ + 1)).1,
            (muxLoop pid n rest (succ + 1)).2) := by
  simp [muxLoop]

lemma muxLoop_cons_failed (pid : String) (n : Nat) (err : String)
    (rest : List (InnerEvent α)) (succ : Nat) :
    muxLoop pid n (.parallelBranchRunFailed pid err :: rest) succ =
      ([.parallelBranchRunFailed pid err], .failed err) := by
  simp [muxLoop]

lemma muxLoop_closed_count (pid : String) (n : Nat) :
    ∀ (es : List (InnerEvent α)) succ out,
      muxLoop pid n es succ = (out, .closed) →
      succ + out.countP (isBranchSucceededFor pid) = n ∧
      out.countP (isBranchFailedFor pid) = 0 := by
  intro es
  induction es with
  | nil =>
      intro succ out h
      exact absurd (congrArg Prod.snd h) (by simp [muxLoop])
  | cons e rest ih =>
      intro succ out h
      by_cases hs : isBranchSucceededFor pid e = true
      · obtain ⟨pid', rfl⟩ : ∃ pid', e = .parallelBranchRunSucceeded pid' := by
          cases e <;> first
            | exact ⟨_, rfl⟩
            | simp [isBranchSucceededFor] at hs
        have hp : pid' = pid := by
          simpa [isBranchSucceededFor] using hs
        subst hp
        rw [muxLoop_cons_succeeded] at h
        by_cases hn : succ + 1 = n
        · rw [if_pos hn] at h
          have h1 : out = [.parallelBranchRunSucceeded pid'] :=
            (congrArg Prod.fst h).symm
          subst h1
          simp [List.countP_cons, isBranchSucceededFor, isBranchFailedFor,
            hn]
        · rw [if_neg hn] at h
          have h1 : out = .parallelBranchRunSucceeded pid' ::
              (muxLoop pid' n rest (succ + 1)).1 :=
            (congrArg Prod.fst h).symm
          have h2 : (muxLoop pid' n rest (succ + 1)).2 = .closed :=
            congrArg Prod.snd h
          obtain ⟨ha, hb⟩ :=
            ih (succ + 1) (muxLoop pid' n rest (succ + 1)).1 (by rw [← h2])
          subst h1
          refine ⟨?_, ?_⟩
          · rw [List.countP_cons]
            simp [isBranchSucceededFor] <;> omega
          · simpa [List.countP_cons, isBranchFailedFor] using hb
      · by_cases hf : isBranchFailedFor pid e = true
        · obtain ⟨pid', err, rfl⟩ :
              ∃ pid' err, e = .parallelBranchRunFailed pid' err := by
            cases e <;> first
              | exact ⟨_, _, rfl⟩
              | simp [isBranchFailedFor] at hf
          have hp : pid' = pid := by
            simpa [isBranchFailedFor] using hf
          subst hp
          rw [muxLoop_cons_failed] at h
          exact absurd (congrArg Prod.snd h) (by simp)
        · rw [muxLoop_cons_passthrough pid n e rest succ
            (by simpa using hs) (by simpa using hf)] at h
          have h1 : out = e :: (muxLoop pid n rest succ).1 :=
            (congrArg Prod.fst h).symm
          have h2 : (muxLoop pid n rest succ).2 = .closed :=
            congrArg Prod.snd h
          obtain ⟨ha, hb⟩ :=
            ih succ (muxLoop pid n rest succ).1 (by rw [← h2])
          subst h1
          rw [Bool.not_eq_true] at hs hf
          constructor
          · simpa [List.countP_cons, hs] using ha
          · simpa [List.countP_cons, hf] using hb

lemma muxLoop_failed_first (pid : String) (n : Nat) (err : String)
    (post : List (InnerEvent α)) :
    ∀ (pre : List (InnerEvent α)) succ,
      pre.countP (isBranchFailedFor pid) = 0 →
      succ + pre.countP (isBranchSucceededFor pid) < n →
      muxLoop pid n (pre ++ .parallelBranchRunFailed pid err :: post) succ =
        (pre ++ [.parallelBranchRunFailed pid err], .failed err) := by
  intro pre
  induction pre with
  | nil =>
      intro succ _ _
      exact muxLoop_cons_failed pid n err post succ
  | cons e pre' ih =>
      intro succ hnofail hcount
      have hf : isBranchFailedFor pid e = false := by
        cases h : isBranchFailedFor pid e
        · rfl
        · rw [List.countP_cons, h] at hnofail
          simp at hnofail
      have hnofail' : pre'.countP (isBranchFailedFor pid) = 0 := by
        rw [List.countP_cons, hf] at hnofail
        simpa using hnofail
      by_cases hs : isBranchSucceededFor pid e = true
      · obtain ⟨pid', rfl⟩ : ∃ pid', e = .parallelBranchRunSucceeded pid' := by
          cases e <;> first
            | exact ⟨_, rfl⟩
            | simp [isBranchSucceededFor] at hs
        have hp : pid' = pid := by simpa [isBranchSucceededFor] using hs
        rw [hp] at hcount ⊢
        have hcount' : succ + 1 + pre'.countP (isBranchSucceededFor pid) < n := by
          rw [List.countP_cons] at hcount
          simp [isBranchSucceededFor] at hcount
          omega
        rw [List.cons_append, muxLoop_cons_succeeded,
          if_neg (by omega : ¬ succ + 1 = n),
          ih (succ + 1) hnofail' hcount']
        rfl
      · rw [Bool.not_eq_true] at hs
        have hcount' : succ + pre'.countP (isBranchSucceededFor pid) < n := by
          rw [List.countP_cons, hs] at hcount
          simpa using hcount
        rw [List.cons_append,
          muxLoop_cons_passthrough pid n e _ succ hs hf,
          ih succ hnofail' hcount']
        rfl

lemma muxLoop_closes_at_nth (pid : String) (n : Nat)
    (post : List (InnerEvent α)) :
    ∀ (pre : List (InnerEvent α)) succ,
      pre.countP (isBranchFailedFor pid) = 0 →
      succ + pre.countP (isBranchSucceededFor pid) + 1 = n →
      muxLoop pid n (pre ++ .parallelBranchRunSucceeded pid :: post) succ =
        (pre ++ [.parallelBranchRunSucceeded pid], .closed) := by
  intro pre
  induction pre with
  | nil =>
      intro succ _ hcount
      have h1 : succ + 1 = n := by simpa using hcount
      simp only [List.nil_append]
      rw [muxLoop_cons_succeeded, if_pos h1]
  | cons e pre' ih =>
      intro succ hnofail hcount
      have hf : isBranchFailedFor pid e = false := by
        cases h : isBranchFailedFor pid e
        · rfl
        · rw [List.countP_cons, h] at hnofail
          simp at hnofail
      have hnofail' : pre'.countP (isBranchFailedFor pid) = 0 := by
        rw [List.countP_cons, hf] at hnofail
        simpa using hnofail
      by_cases hs : isBranchSucceededFor pid e = true
      · obtain ⟨pid', rfl⟩ : ∃ pid', e = .parallelBranchRunSucceeded pid' := by
          cases e <;> first
            | exact ⟨_, rfl⟩
            | simp [isBranchSucceededFor] at hs
        have hp : pid' = pid := by simpa [isBranchSucceededFor] using hs
        rw [hp] at hcount ⊢
        have hcount' :
            succ + 1 + pre'.countP (isBranchSucceededFor pid) + 1 = n := by
          rw [List.countP_cons] at hcount
          simp [isBranchSucceededFor] at hcount
          omega
        rw [List.cons_append, muxLoop_cons_succeeded,
          if_neg (by omega : ¬ succ + 1 = n),
          ih (succ + 1) hnofail' hcount']
        rfl
      · rw [Bool.not_eq_true] at hs
        have hcount' :
            succ + pre'.countP (isBranchSucceededFor pid) + 1 = n := by
          rw [List.countP_cons, hs] at hcount
          simpa using hcount
        rw [List.cons_append,
          muxLoop_cons_passthrough pid n e _ succ hs hf,
          ih succ hnofail' hcount']
        rfl

/-- C7: the dispatching driver's monitoring loop counts
`ParallelBranchRunSucceeded` events for its `parallel_id` and closes the
channel exactly when the count reaches the number of submitted branches
(`len(futures)`): a closed loop consumed exactly `n` such successes (and
no failure), and the `n`-th success closes it immediately.  A
`ParallelBranchRunFailed` event for its `parallel_id` arriving before that
makes the loop yield it and raise `GraphRunFailedError` with the branch's
error, which `run()` turns into a terminal `GraphRunFailedEvent` carrying
that error. -/
theorem claim_C7_parallel_mux :
    (∀ (pid : String) (n : Nat) (es out : List (InnerEvent Nat)),
      muxLoop pid n es 0 = (out, .closed) →
      out.countP (isBranchSucceededFor pid) = n ∧
      out.countP (isBranchFailedFor pid) = 0) ∧
    (∀ (pid : String) (n : Nat) (pre post : List (InnerEvent Nat))
        (err : String),
      pre.countP (isBranchFailedFor pid) = 0 →
      pre.countP (isBranchSucceededFor pid) < n →
      muxLoop pid n (pre ++ .parallelBranchRunFailed pid err :: post) 0 =
        (pre ++ [.parallelBranchRunFailed pid err], .failed err)) ∧
    (∀ (pid : String) (n : Nat) (pre post : List (InnerEvent Nat)),
      pre.countP (isBranchFailedFor pid) = 0 →
      pre.countP (isBranchSucceededFor pid) + 1 = n →
      muxLoop pid n (pre ++ .parallelBranchRunSucceeded pid :: post) 0 =
        (pre ++ [.parallelBranchRunSucceeded pid], .closed)) ∧
    (∀ (inner : List (InnerEvent Nat)) (err : String),
      inner.all (fun ev => !isNodeFailedEvent ev) = true →
      (runOuter inner (.failedError err)).getLast? =
        some (.graphRunFailed err (countExceptions inner))) := by
  refine ⟨?_, ?_, ?_, ?_⟩
  · intro pid n es out h
    have hc := muxLoop_closed_count pid n es 0 out h
    have hc1 := hc.1
    exact ⟨by omega, hc.2⟩
  · intro pid n pre post err h1 h2
    exact muxLoop_failed_first pid n err post pre 0 h1 (by omega)
  · intro pid n pre post h1 h2
    exact muxLoop_closes_at_nth pid n post pre 0 h1 (by omega)
  · intro inner err hclean
    exact runOuter_getLast_of_failedError inner err hclean

/-- Witness for C7 at a concrete interleaving: two branches, one node
event in between; the loop closes at the second success; a failing first
branch aborts with its error; the raised error ends the run with
`GraphRunFailed`. -/
theorem claim_C7_parallel_mux_witness :
    muxLoop "P" 2
      ([.parallelBranchRunStarted "P", .nodeRunStarted 1,
        .parallelBranchRunSucceeded "P", .parallelBranchRunSucceeded "P"] :
        List (InnerEvent Nat)) 0 =
      ([.parallelBranchRunStarted "P", .nodeRunStarted 1,
        .parallelBranchRunSucceeded "P", .parallelBranchRunSucceeded "P"],
        .closed) ∧
    muxLoop "P" 2
      ([.parallelBranchRunStarted "P",
        .parallelBranchRunFailed "P" "branch boom"] :
        List (InnerEvent Nat)) 0 =
      ([.parallelBranchRunStarted "P",
        .parallelBranchRunFailed "P" "branch boom"], .failed "branch boom") ∧
    (runOuter ([] : List (InnerEvent Nat))
      (.failedError "branch boom")).getLast? =
      some (.graphRunFailed "branch boom" 0) := by
  refine ⟨?_, ?_, ?_⟩
  · exact claim_C7_parallel_mux.2.2.1 "P" 2
      [.parallelBranchRunStarted "P", .nodeRunStarted 1,
        .parallelBranchRunSucceeded "P"] [] (by decide) (by decide)
  · exact claim_C7_parallel_mux.2.1 "P" 2
      [.parallelBranchRunStarted "P"] [] "branch boom" (by decide)
      (by decide)
  · exact claim_C7_parallel_mux.2.2.2 [] "branch boom" (by decide)

/-! ## Claim C8: answer accumulation in `run()` -/

/-- The inner stream produced by a sequence of ANSWER-node successes whose
`"answer"` outputs are the given strings. -/
def answerEvents (nid : α) (answers : List String) : List (InnerEvent α) :=
  answers.map fun a => .nodeRunSucceeded nid .answer [("answer", some a)]

/-- One accumulation step of `run()`'s ANSWER handling: append a newline
and the new answer, then `strip()`. -/
def answerStep (acc a : String) : String := pyStrip (acc ++ "\n" ++ a)

/-- The accumulated `outputs["answer"]` after a sequence of answer-node
outputs: the left fold of `answerStep` from the initial `""`. -/
def answerFold (answers : List String) : String :=
  answers.foldl answerStep ""

lemma updateAnswerOutputs_nil (a : String) :
    updateAnswerOutputs [] [("answer", some a)] =
      [("answer", some (answerStep "" a))] := by
  simp [updateAnswerOutputs, dictInsert, dictGetStr, answerStep]

lemma updateAnswerOutputs_single (s a : String) :
    updateAnswerOutputs [("answer", some s)] [("answer", some a)] =
      [("answer", some (answerStep s a))] := by
  simp [updateAnswerOutputs, dictInsert, dictGetStr, answerStep]

lemma answerEvents_cons (nid : α) (a : String) (rest : List String) :
    answerEvents nid (a :: rest) =
      .nodeRunSucceeded nid .answer [("answer", some a)] ::
        answerEvents nid rest := rfl

lemma processItems_answerEvents (nid : α) :
    ∀ (answers : List String) (exc : Nat) (s : String),
      processItems (answerEvents nid answers) exc [("answer", some s)] =
        ((answerEvents nid answers).map .inner,
          some (exc, [("answer", some (answers.foldl answerStep s))])) := by
  intro answers
  induction answers with
  | nil => intro exc s; simp [answerEvents, processItems]
  | cons a rest ih =>
      intro exc s
      rw [answerEvents_cons]
      simp only [processItems]
      rw [if_neg (by decide : ¬ (NodeType.answer = NodeType.end_))]
      simp only [if_true]
      rw [updateAnswerOutputs_single, ih exc (answerStep s a)]
      simp [answerEvents_cons]

/-- C8 (amended): `run()` folds each succeeding ANSWER node's `"answer"`
output into `outputs["answer"]` by appending `"\n" + answer` and then
`strip()`-ing the accumulated string, so the final value is the left fold
of that step over the answer outputs in emission order starting from `""`
— not, in general, the trimmed newline-join (the per-step `strip()`
removes whitespace adjacent to the inserted newlines). -/
theorem claim_C8_amended_answer_accumulation (nid : α)
    (answers : List String) (hne : answers ≠ []) :
    runOuter (answerEvents nid answers) .normal =
      .graphRunStarted :: ((answerEvents nid answers).map .inner ++
        [.graphRunSucceeded [("answer", some (answerFold answers))]]) := by
  cases answers with
  | nil => exact absurd rfl hne
  | cons a rest =>
      have h0 : processItems (answerEvents nid (a :: rest)) 0 [] =
          ((answerEvents nid (a :: rest)).map .inner,
            some (0, [("answer", some (answerFold (a :: rest)))])) := by
        rw [answerEvents_cons]
        simp only [processItems]
        rw [if_neg (by decide : ¬ (NodeType.answer = NodeType.end_))]
        simp only [if_true]
        rw [updateAnswerOutputs_nil,
          processItems_answerEvents nid rest 0 (answerStep "" a)]
        simp [answerEvents_cons, answerFold]
      simp [runOuter, h0]

/-- Counterexample to C8 as stated: with two answer outputs `"x "` and
`"y"`, the accumulated `outputs["answer"]` is `"x\ny"` (the per-step
`strip()` removed the space before the newline), while the newline-join of
the outputs with leading/trailing whitespace stripped is `"x \ny"` — the
two differ. -/
theorem claim_C8_counterexample :
    (runOuter (answerEvents (0 : Nat) ["x ", "y"]) .normal).getLast? =
      some (.graphRunSucceeded [("answer", some "x\ny")]) ∧
    pyStrip (String.intercalate "\n" ["x ", "y"]) = "x \ny" ∧
    ("x\ny" : String) ≠ "x \ny" := by
  refine ⟨?_, ?_, ?_⟩
  · rfl
  · rfl
  · decide

/-- Witness for the amended C8 on a concrete two-answer stream. -/
theorem claim_C8_amended_answer_accumulation_witness :
    runOuter (answerEvents (0 : Nat) ["x ", "y"]) .normal =
      .graphRunStarted :: ((answerEvents (0 : Nat) ["x ", "y"]).map .inner ++
        [.graphRunSucceeded [("answer", some (answerFold ["x ", "y"]))]]) :=
  claim_C8_amended_answer_accumulation 0 ["x ", "y"] (by decide)

/-! ## Claim C9: sub-graph carver -/

lemma filterIterationNodes_idem (nodeId : String) (nodes : List NodeCfg) :
    filterIterationNodes nodeId (filterIterationNodes nodeId nodes) =
      filterIterationNodes nodeId nodes := by
  unfold filterIterationNodes
  rw [List.filter_filter]
  simp

lemma filterIterationEdges_idem (nodeIds : List String)
    (edges : List EdgeCfg) :
    filterIterationEdges nodeIds (filterIterationEdges nodeIds edges) =
      filterIterationEdges nodeIds edges := by
  unfold filterIterationEdges
  rw [List.filter_filter]
  simp [Bool.and_self]

/-- C9 (amended): the carver's node/edge filter is idempotent — applying
it twice to the same `(graph_config, node_id)` yields the same node and
edge sets, a fixed point.  The nodes kept are exactly the chosen node and
those with `iteration_id == node_id`; the edges kept are exactly those
whose `source`, **when present**, is in the kept node-id set and whose
`target`, when present, is in it — an edge with a missing endpoint field
is retained (the filter tests `edge.get("source") is None or …`). -/
theorem claim_C9_amended_carver_idempotent (nodeId : String)
    (nodes : List NodeCfg) (edges : List EdgeCfg) :
    (carve nodeId (carve nodeId nodes edges).1
      (carve nodeId nodes edges).2 = carve nodeId nodes edges) ∧
    (∀ n : NodeCfg, n ∈ (carve nodeId nodes edges).1 ↔
      (n ∈ nodes ∧ (n.id = nodeId ∨ n.iterationId.getD "" = nodeId))) ∧
    (∀ e : EdgeCfg, e ∈ (carve nodeId nodes edges).2 ↔
      (e ∈ edges ∧
        endpointOk ((carve nodeId nodes edges).1.map NodeCfg.id) e.source
          = true ∧
        endpointOk ((carve nodeId nodes edges).1.map NodeCfg.id) e.target
          = true)) := by
  refine ⟨?_, ?_, ?_⟩
  · simp only [carve]
    rw [filterIterationNodes_idem, filterIterationEdges_idem]
  · intro n
    simp [carve, filterIterationNodes, List.mem_filter]
  · intro e
    simp [carve, filterIterationEdges, List.mem_filter]

/-- Counterexample to C9's edge characterization as stated: an edge whose
`source` field is missing (`None`) is kept by the filter although its
source does not lie in the kept node set; the spec-worded filter
(`filterEdgesBothEndpointsSpec`, both endpoints present and in the set)
drops it, so the two edge sets differ. -/
theorem claim_C9_counterexample :
    (carve "N" [{ id := "N" }] [{ source := none, target := some "N" }]).2 =
      [{ source := none, target := some "N" }] ∧
    filterEdgesBothEndpointsSpec
      ((carve "N" [{ id := "N" }]
        [{ source := none, target := some "N" }]).1.map NodeCfg.id)
      [{ source := none, target := some "N" }] = [] ∧
    ([({ source := none, target := some "N" } : EdgeCfg)] ≠
      ([] : List EdgeCfg)) := by
  refine ⟨?_, ?_, ?_⟩
  · rfl
  · rfl
  · decide

/-- Witness for the amended C9 on a concrete iteration sub-graph. -/
theorem claim_C9_amended_carver_idempotent_witness :
    carve "N"
      (carve "N" [{ id := "N" }, { id := "c", iterationId := some "N" },
        { id := "z" }]
        [{ source := some "N", target := some "c" },
         { source := some "z", target := some "N" }]).1
      (carve "N" [{ id := "N" }, { id := "c", iterationId := some "N" },
        { id := "z" }]
        [{ source := some "N", target := some "c" },
         { source := some "z", target := some "N" }]).2 =
      carve "N" [{ id := "N" }, { id := "c", iterationId := some "N" },
        { id := "z" }]
        [{ source := some "N", target := some "c" },
         { source := some "z", target := some "N" }] :=
  (claim_C9_amended_carver_idempotent "N"
    [{ id := "N" }, { id := "c", iterationId := some "N" }, { id := "z" }]
    [{ source := some "N", target := some "c" },
     { source := some "z", target := some "N" }]).1

/-! ## Claim C10: rejected submits leak `submit_count` -/

lemma runOps_invariant :
    ∀ (ops : List PoolOp) (st : PoolState),
      st.submitCount = st.inFlight + st.rejected →
      (st.runOps ops).submitCount =
        (st.runOps ops).inFlight + (st.runOps ops).rejected := by
  intro ops
  induction ops with
  | nil => intro st h; exact h
  | cons op rest ih =>
      intro st h
      cases op with
      | submit =>
          by_cases hfull :
              st.submitCount + 1 > st.maxSubmitCount <;>
            · simp only [PoolState.runOps, PoolState.submit, checkIsFull,
                hfull]
              simp only [if_true, if_false]
              exact ih _ (by simp only []; omega)
      | complete =>
          by_cases hin : st.inFlight > 0
          · simp only [PoolState.runOps, hin, if_pos]
            exact ih _ (by simp only [PoolState.taskDone]; omega)
          · simp only [PoolState.runOps, hin, if_neg, if_false]
            exact ih _ h

/-- C10 (implicit): `submit` increments `submit_count` before the cap
check, and a rejected submission creates no future (so
`task_done_callback` never decrements on its behalf): a rejected `submit`
leaves `submit_count` one higher with `inFlight` unchanged, and along any
sequence of submits and task completions on a fresh pool,
`submit_count = inFlight + rejected`; once all running tasks have
completed, `submit_count` equals the number of rejected submits, each
rejection permanently consuming one unit of the pool's capacity. -/
theorem claim_C10_rejected_submit_leak :
    (∀ (st : PoolState) (e : String), (st.submit).2 = .error e →
      (st.submit).1.submitCount = st.submitCount + 1 ∧
      (st.submit).1.inFlight = st.inFlight ∧
      (st.submit).1.rejected = st.rejected + 1) ∧
    (∀ (K : Nat) (ops : List PoolOp),
      ((PoolState.fresh K).runOps ops).submitCount =
        ((PoolState.fresh K).runOps ops).inFlight +
          ((PoolState.fresh K).runOps ops).rejected) ∧
    (∀ (K : Nat) (ops : List PoolOp),
      ((PoolState.fresh K).runOps ops).inFlight = 0 →
      ((PoolState.fresh K).runOps ops).submitCount =
        ((PoolState.fresh K).runOps ops).rejected) := by
  refine ⟨?_, ?_, ?_⟩
  · intro st e herr
    by_cases hfull : st.submitCount + 1 > st.maxSubmitCount
    · simp [PoolState.submit, checkIsFull, hfull]
    · simp [PoolState.submit, checkIsFull, hfull] at herr
  · intro K ops
    exact runOps_invariant ops (PoolState.fresh K) (by simp [PoolState.fresh])
  · intro K ops hin
    have h := runOps_invariant ops (PoolState.fresh K)
      (by simp [PoolState.fresh])
    omega

/-- Witness for C10: a rejected submit on a full pool leaves the counter
raised; a fresh two-slot pool that sees three submits and then both
completions ends with `submit_count = rejected = 1`. -/
theorem claim_C10_rejected_submit_leak_witness :
    ((⟨2, 2, 2, 0⟩ : PoolState).submit).1.submitCount = 2 + 1 ∧
    ((PoolState.fresh 2).runOps
      [.submit, .submit, .submit, .complete, .complete]).submitCount =
      ((PoolState.fresh 2).runOps
        [.submit, .submit, .submit, .complete, .complete]).rejected := by
  constructor
  · exact (claim_C10_rejected_submit_leak.1 ⟨2, 2, 2, 0⟩
      "Max submit count 2 of workflow thread pool reached." rfl).1
  · exact claim_C10_rejected_submit_leak.2.2 2
      [.submit, .submit, .submit, .complete, .complete] (by decide)

end Dify
